import Mathlib

/-!
Shallow embedding of the deterministic study-timetable generation engine
(`backend/timetable/`: `utils.py`, `models.py`, `scoring.py`, `scheduler.py`).

Modelling conventions:
* calendar dates are integer day numbers (day 0 is a Monday, so the weekday
  of day `d` is `d % 7`, matching `date.weekday()`);
* clock times are integer minutes from midnight (a Python `time` object
  `hh:mm` is `hh * 60 + mm`); Python guarantees `0 <= value <= 1439`;
* Python `int` is `Int`, Python `float` is `Rat` (the engine only performs
  arithmetic that is exact on rationals), except in the urgency scorer where
  `days_remaining ** 0.5` forces real numbers;
* Python sets of strings are `Finset String`; Python dicts keyed by the ISO
  date string are association lists keyed by the day number (the engine only
  ever looks up and overwrites existing keys, never inserts new ones after
  construction);
* `int(x)` on a float is truncation toward zero, embedded as `ratTrunc`.
-/

namespace Timetable

/-- Python `utils.clamp(value, min_val, max_val) = max(min_val, min(max_val, value))`. -/
def clamp {α : Type} [LinearOrder α] (value min_val max_val : α) : α :=
  max min_val (min max_val value)

/-- Python `int(q)` for a float/rational `q`: truncation toward zero. -/
def ratTrunc (q : ℚ) : ℤ :=
  if 0 ≤ q then ⌊q⌋ else ⌈q⌉

/-- `DateTimeUtils.hours_to_minutes(hours) = int(hours * 60)`. -/
def hoursToMinutes (hours : ℚ) : ℤ :=
  ratTrunc (hours * 60)

/-- `DateTimeUtils.date_range(start, end)`: all days from `s` to `e` inclusive
(empty when `e < s`), in order. -/
def dateRange (s e : ℤ) : List ℤ :=
  (List.range (e + 1 - s).toNat).map (fun (i : ℕ) => s + (i : ℤ))

/-- `DateTimeUtils.days_between(start, end) = (end - start).days`. -/
def daysBetween (start_date end_date : ℤ) : ℤ :=
  end_date - start_date

/-- `DateTimeUtils.add_days(base, days)`. -/
def addDays (base_date days : ℤ) : ℤ :=
  base_date + days

/-- `DateTimeUtils.add_minutes_to_time`: add minutes to a clock time,
capping at `23:59` (minute 1439) and flooring at `00:00`. -/
def addMinutesToTime (base_time minutes : ℤ) : ℤ :=
  let total := base_time + minutes
  if 24 * 60 ≤ total then 23 * 60 + 59
  else if total < 0 then 0
  else total

/-- `DateTimeUtils.find_latest_date`: `max(dates)` or `None` when empty. -/
def findLatestDate (dates : List ℤ) : Option ℤ :=
  match dates with
  | [] => none
  | d :: ds => some (ds.foldl max d)

/-- `DateTimeUtils.get_spaced_repetition_dates(initial, end, intervals)`:
keeps `initial + i` for each interval `i` whenever it is at most `end_date`. -/
def spacedRepetitionDates (initial_date end_date : ℤ) (intervals : List ℤ) : List ℤ :=
  (intervals.map (fun i => initial_date + i)).filter (fun d => d ≤ end_date)

/-- `models.EventType`. -/
inductive EventType where
  | exam
  | assignment
  | deadline
  | lecture
  | lab
deriving DecidableEq

/-- The `.value` string of an `EventType` member. -/
def EventType.value : EventType → String
  | .exam => "exam"
  | .assignment => "assignment"
  | .deadline => "deadline"
  | .lecture => "lecture"
  | .lab => "lab"

/-- `models.TaskStatus`. -/
inductive TaskStatus where
  | pending
  | scheduled
  | in_progress
  | completed
  | missed
  | rescheduled
deriving DecidableEq

/-- `models.TaskType`. -/
inductive TaskType where
  | initial_learning
  | revision
  | practice
  | exam_prep
deriving DecidableEq

/-- `models.FixedEvent` (frozen dataclass). Construction validates
`1 <= priority_level <= 10` and `0 <= estimated_effort_hours`; theorems carry
those as hypotheses where they matter. -/
structure FixedEvent where
  id : String
  event_type : EventType
  subject : String
  topic : Option String
  target_date : ℤ
  priority_level : ℤ
  estimated_effort_hours : ℚ
  description : String := ""
deriving DecidableEq

/-- `models.DailyAvailability` (frozen dataclass). -/
structure DailyAvailability where
  weekday_hours : ℚ := 4
  weekend_hours : ℚ := 6
  start_time : ℤ := 9 * 60
  end_time : ℤ := 21 * 60
  excluded_dates : List ℤ := []
deriving DecidableEq

/-- `DailyAvailability.get_hours_for_date`: 0 on excluded dates, else weekday
or weekend hours (`date.weekday() < 5` means Monday-Friday). -/
def DailyAvailability.get_hours_for_date (a : DailyAvailability) (target_date : ℤ) : ℚ :=
  if target_date ∈ a.excluded_dates then 0
  else if target_date % 7 < 5 then a.weekday_hours
  else a.weekend_hours

/-- `models.StudyPreferences` (frozen dataclass). Construction validates
`session_length_minutes >= 15`, `break_length_minutes >= 0` and
`0.1 <= buffer_percentage <= 0.3`; theorems carry those as hypotheses. -/
structure StudyPreferences where
  session_length_minutes : ℤ := 45
  break_length_minutes : ℤ := 15
  max_sessions_per_day : ℤ := 6
  max_subjects_per_day : ℤ := 3
  buffer_percentage : ℚ := 15 / 100
  prefer_morning : Bool := true
  min_session_gap_minutes : ℤ := 5
deriving DecidableEq

/-- `models.LearningTopic` (frozen dataclass). Construction validates that
both scores lie in `[0, 1]`. -/
structure LearningTopic where
  id : String
  subject : String
  topic : String
  difficulty_score : ℚ
  confidence_score : ℚ
  prerequisites : List String := []
  estimated_hours : ℚ := 2
  is_concept_heavy : Bool := false
deriving DecidableEq

/-- `models.StudyTask` (mutable dataclass; mutation is modelled by returning
updated copies, and the scheduler's aliasing of one task object in several
lists is modelled by rewriting list entries keyed on the unique `task_id`). -/
structure StudyTask where
  task_id : String
  subject : String
  topic : String
  deadline : ℤ
  required_minutes : ℤ
  priority : ℤ
  difficulty_score : ℚ
  confidence_score : ℚ
  status : TaskStatus := .pending
  task_type : TaskType := .initial_learning
  parent_task_id : Option String := none
  source_event_id : Option String := none
  source_topic_id : Option String := none
  scheduled_date : Option ℤ := none
  scheduled_slot : Option ℤ := none
  revision_iteration : ℤ := 0
deriving DecidableEq

/-- `StudyTask.mark_scheduled`. -/
def StudyTask.mark_scheduled (t : StudyTask) (d : ℤ) (slot : ℤ) : StudyTask :=
  { t with status := .scheduled, scheduled_date := some d, scheduled_slot := some slot }

/-- `models.TimeSlot` (frozen dataclass). -/
structure TimeSlot where
  start_time : ℤ
  end_time : ℤ
  subject : String
  topic : String
  task_id : String
  task_type : TaskType := .initial_learning
  is_break : Bool := false
deriving DecidableEq

/-- `models.DaySchedule` (mutable dataclass). -/
structure DaySchedule where
  date : ℤ
  slots : List TimeSlot := []
  total_study_minutes : ℤ := 0
  subjects_covered : Finset String := ∅
  capacity_used : ℚ := 0
deriving DecidableEq

/-- `DaySchedule.add_slot`: append the slot; for non-break slots accumulate
the slot's minute span and its subject. -/
def DaySchedule.add_slot (ds : DaySchedule) (slot : TimeSlot) : DaySchedule :=
  let ds := { ds with slots := ds.slots ++ [slot] }
  if slot.is_break then ds
  else
    { ds with
      total_study_minutes := ds.total_study_minutes + (slot.end_time - slot.start_time),
      subjects_covered := insert slot.subject ds.subjects_covered }

/-- `models.CapacityWarning`. -/
structure CapacityWarning where
  date : ℤ
  message : String
  affected_tasks : List String
  severity : String := "warning"
deriving DecidableEq

/-- `scheduler.DayCapacity` (planning-only mutable dataclass). -/
structure DayCapacity where
  date : ℤ
  total_minutes : ℤ
  available_minutes : ℤ
  max_sessions : ℤ
  sessions_used : ℤ := 0
  subjects_used : Finset String := ∅
  last_topic : Option String := none
  next_available_time : ℤ := 9 * 60
deriving DecidableEq

/-- `DayCapacity.can_fit_session`: reject when remaining minutes are short,
the session limit is reached, a new subject would exceed the subject limit,
or the same topic would run back-to-back. -/
def DayCapacity.can_fit_session (c : DayCapacity) (minutes : ℤ) (subject topic : String)
    (max_subjects : ℤ) : Bool :=
  if c.available_minutes < minutes then false
  else if c.max_sessions ≤ c.sessions_used then false
  else if subject ∉ c.subjects_used ∧ max_subjects ≤ (c.subjects_used.card : ℤ) then false
  else if c.last_topic = some topic ∧ 0 < c.sessions_used then false
  else true

/-- `DayCapacity.allocate`. -/
def DayCapacity.allocate (c : DayCapacity) (minutes : ℤ) (subject topic : String) : DayCapacity :=
  { c with
    available_minutes := c.available_minutes - minutes,
    sessions_used := c.sessions_used + 1,
    subjects_used := insert subject c.subjects_used,
    last_topic := some topic }

/-- Zero-pad a counter to four digits, as in the Python format `f"{n:04d}"`
used by `TaskDecomposer._next_task_id`. -/
def pad4 (n : ℕ) : String :=
  let s := Nat.repr n
  String.mk (List.replicate (4 - s.length) '0') ++ s

/-- `TaskDecomposer._next_task_id`: the `k`-th id drawn with a given text tag
(the decomposer holds a counter starting at 0 and pre-increments it). -/
def nextTaskId (tag : String) (counter : ℕ) : String :=
  tag ++ "_" ++ pad4 counter

/-- The Python expression `event.topic or f"{event.event_type.value} preparation"`:
`None` and the empty string are both falsy. -/
def eventTopicName (event : FixedEvent) : String :=
  match event.topic with
  | some t => if t = "" then event.event_type.value ++ " preparation" else t
  | none => event.event_type.value ++ " preparation"

/-- `TaskDecomposer.decompose_event`. `session_length` is
`preferences.session_length_minutes`; `counter` is the decomposer's task-id
counter before the call; returns the produced tasks and the new counter. -/
def decomposeEvent (session_length : ℤ) (counter : ℕ) (event : FixedEvent) :
    List StudyTask × ℕ :=
  let total_minutes := hoursToMinutes event.estimated_effort_hours
  let task_type : TaskType :=
    if event.event_type = EventType.exam then .exam_prep else .initial_learning
  let num_sessions := max 1 ((total_minutes + session_length - 1).fdiv session_length)
  let minutes_per_session := total_minutes.fdiv num_sessions
  let remainder := total_minutes.fmod num_sessions
  let n := num_sessions.toNat
  (((List.range n).map (fun (i : ℕ) =>
      let session_minutes := minutes_per_session + (if (i : ℤ) < remainder then 1 else 0)
      let session_minutes := min session_minutes session_length
      { task_id := nextTaskId "event" (counter + i + 1),
        subject := event.subject,
        topic := eventTopicName event,
        deadline := event.target_date,
        required_minutes := session_minutes,
        priority := event.priority_level,
        difficulty_score := 1 / 2,
        confidence_score := 1 / 2,
        task_type := task_type,
        source_event_id := some event.id : StudyTask })),
    counter + n)

/-- `TaskDecomposer._calculate_topic_priority`:
`int(clamp((difficulty + (1 - confidence)) / 2 * 10, 1, 10))`. -/
def calculateTopicPriority (topic : LearningTopic) : ℤ :=
  let priority_score := (topic.difficulty_score + (1 - topic.confidence_score)) / 2
  ratTrunc (clamp (priority_score * 10) 1 10)

/-- The `adjusted_minutes` computed by `decompose_topic`:
`int(base_minutes * difficulty_multiplier * confidence_multiplier)`. -/
def topicAdjustedMinutes (topic : LearningTopic) : ℤ :=
  let base_minutes := hoursToMinutes topic.estimated_hours
  let difficulty_multiplier : ℚ := 1 + topic.difficulty_score * (1 / 2)
  let confidence_multiplier : ℚ := 1 + (1 - topic.confidence_score) * (1 / 2)
  ratTrunc ((base_minutes : ℚ) * difficulty_multiplier * confidence_multiplier)

/-- The `effective_session_length` chosen by `decompose_topic`: capped at 30
minutes for difficult (> 0.7) or low-confidence (< 0.3) topics. -/
def topicEffectiveSessionLength (session_length : ℤ) (topic : LearningTopic) : ℤ :=
  if topic.difficulty_score > 7 / 10 ∨ topic.confidence_score < 3 / 10 then
    min session_length 30
  else session_length

/-- `TaskDecomposer.decompose_topic`. -/
def decomposeTopic (session_length : ℤ) (counter : ℕ) (topic : LearningTopic)
    (deadline : ℤ) : List StudyTask × ℕ :=
  let adjusted_minutes := topicAdjustedMinutes topic
  let effective_session_length := topicEffectiveSessionLength session_length topic
  let num_sessions :=
    max 1 ((adjusted_minutes + effective_session_length - 1).fdiv effective_session_length)
  let num_sessions := min num_sessions 10
  let minutes_per_session := adjusted_minutes.fdiv num_sessions
  let remainder := adjusted_minutes.fmod num_sessions
  let n := num_sessions.toNat
  (((List.range n).map (fun (i : ℕ) =>
      let session_minutes := minutes_per_session + (if (i : ℤ) < remainder then 1 else 0)
      let session_minutes := min (max session_minutes 15) session_length
      { task_id := nextTaskId "topic" (counter + i + 1),
        subject := topic.subject,
        topic := topic.topic,
        deadline := deadline,
        required_minutes := session_minutes,
        priority := calculateTopicPriority topic,
        difficulty_score := topic.difficulty_score,
        confidence_score := topic.confidence_score,
        task_type := .initial_learning,
        source_topic_id := some topic.id : StudyTask })),
    counter + n)

/-- `TaskDecomposer.create_revision_task`. -/
def createRevisionTask (counter : ℕ) (original_task : StudyTask) (revision_date : ℤ)
    (iteration : ℤ) : StudyTask × ℕ :=
  let revision_minutes := max 15 (original_task.required_minutes.fdiv 2)
  ({ task_id := nextTaskId "revision" (counter + 1),
     subject := original_task.subject,
     topic := original_task.topic,
     deadline := revision_date,
     required_minutes := revision_minutes,
     priority := max 1 (original_task.priority - 1),
     difficulty_score := original_task.difficulty_score,
     confidence_score := min 1 (original_task.confidence_score + (1 / 10) * (iteration : ℚ)),
     task_type := .revision,
     parent_task_id := some original_task.task_id,
     source_topic_id := original_task.source_topic_id,
     revision_iteration := iteration },
   counter + 1)

/-- `scoring.ScoreWeights` (frozen dataclass) with its default weights. -/
structure ScoreWeights where
  priority_weight : ℝ := 0.25
  difficulty_weight : ℝ := 0.15
  deadline_weight : ℝ := 0.35
  confidence_weight : ℝ := 0.15
  type_weight : ℝ := 0.10

/-- The weights of `UrgencyScorer()` (no custom weights supplied). -/
noncomputable def defaultWeights : ScoreWeights := {}

/-- `scoring.ScoreBreakdown`. -/
structure ScoreBreakdown where
  task_id : String
  total_score : ℝ
  priority_component : ℝ
  difficulty_component : ℝ
  deadline_component : ℝ
  confidence_component : ℝ
  type_component : ℝ
  days_until_deadline : ℤ
  explanation : String

/-- `UrgencyScorer._calculate_priority_component`: clamp to `[1, 10]`, divide by 10. -/
noncomputable def priorityComponent (priority : ℤ) : ℝ :=
  clamp (priority : ℝ) 1 10 / 10

/-- `UrgencyScorer._calculate_difficulty_component`. -/
noncomputable def difficultyComponent (difficulty_score : ℚ) : ℝ :=
  clamp (difficulty_score : ℝ) 0 1

/-- `UrgencyScorer._calculate_deadline_component`. The Python float power
`normalized_days ** 0.5` is embedded as a real `rpow`. -/
noncomputable def deadlineComponent (days_remaining planning_horizon_days : ℤ) : ℝ :=
  if days_remaining ≤ 0 then 1
  else if planning_horizon_days ≤ days_remaining then 0.1
  else
    let normalized_days : ℝ := (days_remaining : ℝ) / (planning_horizon_days : ℝ)
    max 0.1 (1 - Real.rpow normalized_days 0.5)

/-- `UrgencyScorer._calculate_confidence_component`. -/
noncomputable def confidenceComponent (confidence_score : ℚ) : ℝ :=
  1 - clamp (confidence_score : ℝ) 0 1

/-- `UrgencyScorer.TYPE_BONUSES` as `_calculate_type_component` reads it. -/
noncomputable def typeComponent : TaskType → ℝ
  | .exam_prep => 0.15
  | .revision => 0.08
  | .initial_learning => 0.05
  | .practice => 0.02

/-- Python `str.capitalize()`: first character upper-cased, the rest lower-cased. -/
def pyCapitalize (s : String) : String :=
  match s.data with
  | [] => ""
  | c :: cs => String.mk (c.toUpper :: cs.map Char.toLower)

/-- `UrgencyScorer._generate_explanation`. -/
def generateExplanation (task : StudyTask) (days_remaining : ℤ) : String :=
  let factors : List String :=
    (if 8 ≤ task.priority then ["high priority"]
     else if task.priority ≤ 3 then ["low priority"] else []) ++
    (if days_remaining ≤ 0 then ["OVERDUE"]
     else if days_remaining ≤ 3 then ["deadline imminent"]
     else if days_remaining ≤ 7 then ["deadline approaching"] else []) ++
    (if task.confidence_score < 3 / 10 then ["low confidence"]
     else if task.confidence_score > 8 / 10 then ["high confidence"] else []) ++
    (if task.difficulty_score > 7 / 10 then ["high difficulty"] else []) ++
    (if task.task_type = .exam_prep then ["exam preparation"]
     else if task.task_type = .revision then ["revision task"] else [])
  if factors = [] then "Standard priority task"
  else pyCapitalize (String.intercalate ", " factors)

/-- `UrgencyScorer.calculate_score_with_breakdown` (default weights). -/
noncomputable def calculateScoreWithBreakdown (task : StudyTask) (current_date : ℤ)
    (planning_horizon_days : ℤ) : ScoreBreakdown :=
  let w := defaultWeights
  let priority_component := priorityComponent task.priority
  let difficulty_component := difficultyComponent task.difficulty_score
  let days_remaining := daysBetween current_date task.deadline
  let deadline_component := deadlineComponent days_remaining planning_horizon_days
  let confidence_component := confidenceComponent task.confidence_score
  let type_component := typeComponent task.task_type
  let total_score :=
    priority_component * w.priority_weight +
    difficulty_component * w.difficulty_weight +
    deadline_component * w.deadline_weight +
    confidence_component * w.confidence_weight +
    type_component * w.type_weight
  let total_score := clamp total_score 0 1
  { task_id := task.task_id,
    total_score := total_score,
    priority_component := priority_component,
    difficulty_component := difficulty_component,
    deadline_component := deadline_component,
    confidence_component := confidence_component,
    type_component := type_component,
    days_until_deadline := days_remaining,
    explanation := generateExplanation task days_remaining }

/-- `UrgencyScorer.calculate_score`. -/
noncomputable def calculateScore (task : StudyTask) (current_date : ℤ)
    (planning_horizon_days : ℤ) : ℝ :=
  (calculateScoreWithBreakdown task current_date planning_horizon_days).total_score

/-- The scored-tuple list built by the loop at the start of
`UrgencyScorer.rank_tasks`, in input order. -/
noncomputable def scoredTasks (tasks : List StudyTask) (current_date : ℤ)
    (planning_horizon_days : ℤ) : List (StudyTask × ℝ × ScoreBreakdown) :=
  tasks.map (fun t =>
    let b := calculateScoreWithBreakdown t current_date planning_horizon_days
    (t, b.total_score, b))

/-- The total preorder that Python's stable `list.sort` with key
`(-score, deadline)` sorts by (ascending lexicographic on the key). -/
noncomputable def rankLE (a b : StudyTask × ℝ × ScoreBreakdown) : Bool :=
  @decide (b.2.1 < a.2.1 ∨ (a.2.1 = b.2.1 ∧ a.1.deadline ≤ b.1.deadline))
    (Classical.propDecidable _)

/-- `UrgencyScorer.rank_tasks`: score every task, then stable-sort descending
by score with ascending deadline as tie-break. Python's `list.sort` is a
stable merge sort, embedded as `List.mergeSort`. -/
noncomputable def rankTasks (tasks : List StudyTask) (current_date : ℤ)
    (planning_horizon_days : ℤ) : List (StudyTask × ℝ × ScoreBreakdown) :=
  (scoredTasks tasks current_date planning_horizon_days).mergeSort rankLE

/-- `CapacityPlanner.build_capacity_map`: one `DayCapacity` per day of the
horizon, keyed by the day. -/
def buildCapacityMap (availability : DailyAvailability) (preferences : StudyPreferences)
    (start_date end_date : ℤ) : List (ℤ × DayCapacity) :=
  (dateRange start_date end_date).map (fun d =>
    let raw_hours := availability.get_hours_for_date d
    let raw_minutes := hoursToMinutes raw_hours
    let buffer := ratTrunc ((raw_minutes : ℚ) * preferences.buffer_percentage)
    let available_minutes := raw_minutes - buffer
    (d, { date := d,
          total_minutes := raw_minutes,
          available_minutes := available_minutes,
          max_sessions := preferences.max_sessions_per_day,
          next_available_time := availability.start_time : DayCapacity }))

/-- Overwrite the value at an existing key of an association list (Python
mutates the dict value in place; keys and their order never change). -/
def updateAssoc {β : Type} (l : List (ℤ × β)) (k : ℤ) (v : β) : List (ℤ × β) :=
  l.map (fun p => if p.1 = k then (k, v) else p)

/-- The mutable state a `TimetableScheduler` threads through allocation:
its capacity map, its `self.schedule`, and its `self.warnings`. -/
structure SchedState where
  capMap : List (ℤ × DayCapacity)
  schedule : List (ℤ × DaySchedule)
  warnings : List CapacityWarning

/-- Read `self.schedule[date_key]`. In `generate` the key always exists; the
default is never reached there. -/
def getSched (schedule : List (ℤ × DaySchedule)) (d : ℤ) : DaySchedule :=
  (schedule.lookup d).getD { date := d }

/-- `TimetableScheduler._add_task_to_schedule`: build the time slot, append it
to the day, mark the task scheduled, consume capacity, advance the day's next
free time past the session plus break, refresh `capacity_used`. -/
def addTaskToSchedule (preferences : StudyPreferences) (task : StudyTask)
    (capacity : DayCapacity) (target_date : ℤ) (schedule : List (ℤ × DaySchedule)) :
    StudyTask × DayCapacity × List (ℤ × DaySchedule) :=
  let day_schedule := getSched schedule target_date
  let start_time := capacity.next_available_time
  let end_time := addMinutesToTime start_time task.required_minutes
  let slot : TimeSlot :=
    { start_time := start_time,
      end_time := end_time,
      subject := task.subject,
      topic := task.topic,
      task_id := task.task_id,
      task_type := task.task_type }
  let day_schedule := day_schedule.add_slot slot
  let task := task.mark_scheduled target_date ((day_schedule.slots.length : ℤ) - 1)
  let capacity := capacity.allocate task.required_minutes task.subject task.topic
  let total_minutes := task.required_minutes + preferences.break_length_minutes
  let capacity := { capacity with next_available_time := addMinutesToTime start_time total_minutes }
  let day_schedule :=
    if 0 < capacity.total_minutes then
      { day_schedule with
        capacity_used :=
          ((capacity.total_minutes - capacity.available_minutes : ℤ) : ℚ) /
            (capacity.total_minutes : ℚ) }
    else day_schedule
  (task, capacity, updateAssoc schedule target_date day_schedule)

/-- The time slot `_add_task_to_schedule` builds for a task at a day's next
available time. -/
def sessionSlot (task : StudyTask) (c : DayCapacity) : TimeSlot :=
  { start_time := c.next_available_time,
    end_time := addMinutesToTime c.next_available_time task.required_minutes,
    subject := task.subject,
    topic := task.topic,
    task_id := task.task_id,
    task_type := task.task_type }

/-- The capacity record after `_add_task_to_schedule`: allocate the session
and advance the next available time past the session plus break. -/
def postCap (preferences : StudyPreferences) (task : StudyTask) (c : DayCapacity) :
    DayCapacity :=
  let c1 := c.allocate task.required_minutes task.subject task.topic
  { c1 with
    next_available_time :=
      addMinutesToTime c.next_available_time
        (task.required_minutes + preferences.break_length_minutes) }

/-- The day schedule after `_add_task_to_schedule`: the appended slot plus
the refreshed `capacity_used` fraction. -/
def postDay (preferences : StudyPreferences) (task : StudyTask) (c : DayCapacity)
    (s : DaySchedule) : DaySchedule :=
  let day1 := s.add_slot (sessionSlot task c)
  let cap2 := postCap preferences task c
  if 0 < cap2.total_minutes then
    { day1 with
      capacity_used :=
        ((cap2.total_minutes - cap2.available_minutes : ℤ) : ℚ) / (cap2.total_minutes : ℚ) }
  else day1

/-- Structural invariant of the schedule map used by the scheduler: its keys
stay exactly the horizon dates, and no slot is ever a break slot. -/
def structInv (K : List ℤ) (schedule : List (ℤ × DaySchedule)) : Prop :=
  schedule.map Prod.fst = K ∧ ∀ p ∈ schedule, ∀ sl ∈ p.2.slots, sl.is_break = false

/-- One iteration of the date scan in `_allocate_task`: the date is usable
when it is a key of the capacity map and `can_fit_session` accepts the task. -/
def fitsAt (capMap : List (ℤ × DayCapacity)) (preferences : StudyPreferences)
    (d : ℤ) (task : StudyTask) : Bool :=
  match capMap.lookup d with
  | none => false
  | some c =>
    c.can_fit_session task.required_minutes task.subject task.topic
      preferences.max_subjects_per_day

/-- Allocate `task` on day `d` (which must be a key of the capacity map),
writing the updated capacity and day schedule back into the state. -/
def allocAtDate (preferences : StudyPreferences) (task : StudyTask) (d : ℤ)
    (st : SchedState) : StudyTask × SchedState :=
  match st.capMap.lookup d with
  | none => (task, st)
  | some c =>
    let r := addTaskToSchedule preferences task c d st.schedule
    (r.1, { st with capMap := updateAssoc st.capMap d r.2.1, schedule := r.2.2 })

/-- `TimetableScheduler._allocate_task`: scan `current_date .. deadline` for
the first day that fits; otherwise, when `priority <= 5`, scan the three days
past the deadline and emit a pushed-past-deadline warning on success;
otherwise leave everything untouched and report failure. (The Python warning
message quotes the topic; the quotes are omitted here.) -/
def allocateTask (preferences : StudyPreferences) (current_date : ℤ) (task : StudyTask)
    (st : SchedState) : StudyTask × SchedState × Bool :=
  let valid_dates := dateRange current_date task.deadline
  match valid_dates.find? (fun d => fitsAt st.capMap preferences d task) with
  | some d =>
    let r := allocAtDate preferences task d st
    (r.1, r.2, true)
  | none =>
    if task.priority ≤ 5 then
      match (([1, 2, 3] : List ℤ).map (fun o => addDays task.deadline o)).find?
          (fun d => fitsAt st.capMap preferences d task) with
      | some fallback_date =>
        let r := allocAtDate preferences task fallback_date st
        let warning : CapacityWarning :=
          { date := fallback_date,
            message := "Task " ++ task.topic ++ " pushed past deadline",
            affected_tasks := [task.task_id],
            severity := "warning" }
        (r.1, { r.2 with warnings := r.2.warnings ++ [warning] }, true)
      | none => (task, st, false)
    else (task, st, false)

/-- Replace the entry of `tasks` with the same `task_id` by `t` (the Python
lists alias one mutable task object; ids are unique). -/
def updateTask (tasks : List StudyTask) (t : StudyTask) : List StudyTask :=
  tasks.map (fun u => if u.task_id = t.task_id then t else u)

/-- `TimetableScheduler._schedule_tasks`: rank the pending tasks and greedily
allocate them in ranked order, mirroring mutation of the shared task objects
into `self.tasks`. -/
noncomputable def scheduleTasks (preferences : StudyPreferences) (current_date end_date : ℤ)
    (tasks : List StudyTask) (st : SchedState) : List StudyTask × SchedState :=
  let pending_tasks := tasks.filter (fun t => t.status = TaskStatus.pending)
  let horizon_days := daysBetween current_date end_date
  let ranked_tasks := rankTasks pending_tasks current_date horizon_days
  ranked_tasks.foldl (fun acc triple =>
      let r := allocateTask preferences current_date triple.1 acc.2
      (updateTask acc.1 r.1, r.2.1))
    (tasks, st)

/-- One iteration of the grouping loop of `_add_spaced_repetition`: keep, per
source topic id, the earliest-scheduled task (strictly earlier dates replace;
insertion order of Python dicts is first-encounter order). The guard
`if task.source_topic_id:` is Python truthiness: both `None` and the empty
string are falsy and skip the task. -/
def groupStep (m : List (String × StudyTask)) (t : StudyTask) :
    List (String × StudyTask) :=
  match t.source_topic_id with
  | none => m
  | some tid =>
    if tid = "" then m
    else match m.lookup tid with
    | none => m ++ [(tid, t)]
    | some existing =>
      match t.scheduled_date, existing.scheduled_date with
      | some a, some b =>
        if a < b then m.map (fun p => if p.1 = tid then (tid, t) else p) else m
      | _, _ => m

/-- The grouping loop of `_add_spaced_repetition` over the whole task list. -/
def groupEarliest (initial_tasks : List StudyTask) : List (String × StudyTask) :=
  initial_tasks.foldl groupStep []

/-- `t` is scheduled no later than `u` (whenever both carry a date). -/
def dateLE (t u : StudyTask) : Prop :=
  ∀ a b : ℤ, t.scheduled_date = some a → u.scheduled_date = some b → a ≤ b

/-- One candidate date of the revision loop of `_add_spaced_repetition`: draw
a revision task for the candidate (the id counter advances even for dropped
candidates, as in the source), and append plus schedule it only when the
capacity map has the date and `can_fit_session` accepts it. -/
def revStep (preferences : StudyPreferences) (source_task : StudyTask)
    (acc : List StudyTask × ℕ × SchedState) (ip : ℕ × ℤ) :
    List StudyTask × ℕ × SchedState :=
  let tasks := acc.1
  let counter := acc.2.1
  let st := acc.2.2
  let r := createRevisionTask counter source_task ip.2 (ip.1 : ℤ)
  let revision_task := r.1
  let counter := r.2
  match st.capMap.lookup ip.2 with
  | none => (tasks, counter, st)
  | some c =>
    if c.can_fit_session revision_task.required_minutes revision_task.subject
        revision_task.topic preferences.max_subjects_per_day then
      let r2 := addTaskToSchedule preferences revision_task c ip.2 st.schedule
      (tasks ++ [r2.1], counter,
       { st with capMap := updateAssoc st.capMap ip.2 r2.2.1, schedule := r2.2.2 })
    else (tasks, counter, st)

/-- The revision loop of `_add_spaced_repetition` for one source task: walk
the spaced-repetition candidate dates with iteration numbers starting at 1. -/
def processRevisions (preferences : StudyPreferences) (end_date : ℤ) (source_task : StudyTask)
    (acc : List StudyTask × ℕ × SchedState) : List StudyTask × ℕ × SchedState :=
  match source_task.scheduled_date with
  | none => acc
  | some d0 =>
    let revision_dates := spacedRepetitionDates d0 end_date [1, 3, 7]
    (revision_dates.enum.map (fun p => (p.1 + 1, p.2))).foldl
      (revStep preferences source_task) acc

/-- The scheduled initial-learning tasks of concept-heavy topics that carry a
scheduled date: the `initial_tasks` list built at the top of
`_add_spaced_repetition`. -/
def initialLearningPool (topics : List LearningTopic) (tasks : List StudyTask) :
    List StudyTask :=
  let concept_topic_ids := (topics.filter (fun t => t.is_concept_heavy)).map (fun t => t.id)
  tasks.filter (fun t =>
    (t.status == TaskStatus.scheduled) && (t.task_type == TaskType.initial_learning) &&
    (match t.source_topic_id with
     | some i => concept_topic_ids.contains i
     | none => false) && !(t.scheduled_date == none))

/-- `TimetableScheduler._add_spaced_repetition`. -/
def addSpacedRepetition (preferences : StudyPreferences) (topics : List LearningTopic)
    (end_date : ℤ) (tasks : List StudyTask) (counter : ℕ) (st : SchedState) :
    List StudyTask × ℕ × SchedState :=
  let initial_tasks := initialLearningPool topics tasks
  let topic_tasks := groupEarliest initial_tasks
  (topic_tasks.map (fun p => p.2)).foldl
    (fun acc source_task => processRevisions preferences end_date source_task acc)
    (tasks, counter, st)

/-- The deadlines of a task list in first-occurrence order (iteration order of
the Python grouping dict in `_check_completeness`). -/
def firstOccurDeadlines (tasks : List StudyTask) : List ℤ :=
  tasks.foldl (fun acc t => if t.deadline ∈ acc then acc else acc ++ [t.deadline]) []

/-- `TimetableScheduler._check_completeness`: one warning per deadline group
of still-pending tasks, critical when the group holds a priority >= 8 task. -/
def checkCompleteness (tasks : List StudyTask) (warnings : List CapacityWarning) :
    List CapacityWarning :=
  let unscheduled := tasks.filter (fun t => t.status = TaskStatus.pending)
  warnings ++ (firstOccurDeadlines unscheduled).map (fun dl =>
    let group := unscheduled.filter (fun t => t.deadline = dl)
    { date := dl,
      message := "Could not schedule " ++ Nat.repr group.length ++ " task(s) before deadline",
      affected_tasks := group.map (fun t => t.task_id),
      severity := if group.any (fun t => 8 ≤ t.priority) then "critical" else "warning" })

/-- `TimetableScheduler._determine_horizon`: latest event deadline plus three
days, or thirty days from now when there are no events. -/
def determineHorizon (events : List FixedEvent) (current_date : ℤ) : ℤ :=
  match findLatestDate (events.map (fun e => e.target_date)) with
  | none => addDays current_date 30
  | some latest => addDays latest 3

/-- `TimetableScheduler._decompose_all`: decompose every event, then every
topic against the latest event deadline (or the horizon end without events). -/
def decomposeAll (preferences : StudyPreferences) (events : List FixedEvent)
    (topics : List LearningTopic) (end_date : ℤ) : List StudyTask × ℕ :=
  let eventStep := events.foldl (fun acc e =>
      let r := decomposeEvent preferences.session_length_minutes acc.2 e
      (acc.1 ++ r.1, r.2))
    (([] : List StudyTask), 0)
  let topic_deadline :=
    match findLatestDate (events.map (fun e => e.target_date)) with
    | some latest => latest
    | none => end_date
  topics.foldl (fun acc t =>
      let r := decomposeTopic preferences.session_length_minutes acc.2 t topic_deadline
      (acc.1 ++ r.1, r.2))
    eventStep

/-- The metadata dictionary assembled at the end of `generate`. -/
structure Metadata where
  generated_at : ℤ
  horizon_end : ℤ
  total_tasks : ℕ
  scheduled_tasks : ℕ
  total_events : ℕ
  total_topics : ℕ
deriving DecidableEq

/-- `models.TimetableOutput`. -/
structure TimetableOutput where
  schedule : List (ℤ × DaySchedule)
  tasks : List StudyTask
  warnings : List CapacityWarning
  metadata : Metadata

/-- `TimetableScheduler.generate`, over already-normalized inputs (the raw
dict normalization happens in `__init__`; its guarantees appear as theorem
hypotheses where needed). -/
noncomputable def generate (events : List FixedEvent) (availability : DailyAvailability)
    (preferences : StudyPreferences) (topics : List LearningTopic) (current_date : ℤ) :
    TimetableOutput :=
  let end_date := determineHorizon events current_date
  let dec := decomposeAll preferences events topics end_date
  let capacity_map := buildCapacityMap availability preferences current_date end_date
  let schedule0 := (dateRange current_date end_date).map
    (fun d => (d, ({ date := d } : DaySchedule)))
  let st : SchedState := ⟨capacity_map, schedule0, []⟩
  let step5 := scheduleTasks preferences current_date end_date dec.1 st
  let step6 := addSpacedRepetition preferences topics end_date step5.1 dec.2 step5.2
  let warnings := checkCompleteness step6.1 step6.2.2.warnings
  { schedule := step6.2.2.schedule,
    tasks := step6.1,
    warnings := warnings,
    metadata :=
      { generated_at := current_date,
        horizon_end := end_date,
        total_tasks := step6.1.length,
        scheduled_tasks := (step6.1.filter (fun t => t.status = TaskStatus.scheduled)).length,
        total_events := events.length,
        total_topics := topics.length } }

/-! ### Concrete sample inputs used by witnesses and counterexamples -/

/-- A ten-hour priority-9 exam, as in the spec's decomposition-exactness example. -/
def sampleEvent10 : FixedEvent :=
  { id := "event-10h", event_type := .exam, subject := "Math", topic := some "Calculus",
    target_date := 7, priority_level := 9, estimated_effort_hours := 10 }

/-- A difficult (difficulty 0.8 > 0.7) six-hour topic; its adjusted effort
`int(360 * 1.4 * 1.25) = 630` needs 21 thirty-minute sessions, which the
10-session cap clips. -/
def hardTopic : LearningTopic :=
  { id := "topic-hard", subject := "Physics", topic := "Quantum",
    difficulty_score := 8 / 10, confidence_score := 5 / 10,
    estimated_hours := 6, is_concept_heavy := true }

/-- A difficult topic small enough (adjusted effort `int(120*1.4*1.25) = 210`,
seven 30-minute sessions) that the 10-session cap does not clip it. -/
def smallHardTopic : LearningTopic :=
  { id := "topic-small-hard", subject := "Physics", topic := "Spin",
    difficulty_score := 8 / 10, confidence_score := 5 / 10,
    estimated_hours := 2, is_concept_heavy := false }

/-- A plain pending study task. -/
def sampleTask : StudyTask :=
  { task_id := "task-1", subject := "Math", topic := "Algebra", deadline := 5,
    required_minutes := 45, priority := 5, difficulty_score := 1 / 2,
    confidence_score := 1 / 2 }

/-- A low-priority pending task whose deadline window is fully booked. -/
def witnessTask : StudyTask :=
  { task_id := "w-task", subject := "Math", topic := "Algebra", deadline := 1,
    required_minutes := 30, priority := 4, difficulty_score := 1 / 2,
    confidence_score := 1 / 2 }

/-- A day with no remaining capacity. -/
def fullCap (d : ℤ) : DayCapacity :=
  { date := d, total_minutes := 240, available_minutes := 0, max_sessions := 6 }

/-- A day with plenty of remaining capacity. -/
def openCap (d : ℤ) : DayCapacity :=
  { date := d, total_minutes := 240, available_minutes := 200, max_sessions := 6 }

/-- A scheduler state where days 0 and 1 are full and day 2 (one day past
`witnessTask`'s deadline) is open. -/
def witnessState : SchedState :=
  { capMap := [(0, fullCap 0), (1, fullCap 1), (2, openCap 2)],
    schedule := [(0, { date := 0 }), (1, { date := 1 }), (2, { date := 2 })],
    warnings := [] }

/-- A second task identical to `sampleTask` except for its id (same score and
deadline, for exercising the stable tie-break). -/
def twinTask : StudyTask :=
  { sampleTask with task_id := "task-2" }

/-- A concept-heavy topic whose id is the empty string (the normalizer passes
a raw `"id": ""` through unvalidated). -/
def emptyIdTopic : LearningTopic :=
  { id := "", subject := "Math", topic := "Sets", difficulty_score := 1 / 2,
    confidence_score := 1 / 2, is_concept_heavy := true }

/-- A scheduled initial-learning task of `emptyIdTopic`. -/
def emptyIdTask : StudyTask :=
  { task_id := "task-e1", subject := "Math", topic := "Sets", deadline := 5,
    required_minutes := 45, priority := 5, difficulty_score := 1 / 2,
    confidence_score := 1 / 2, status := .scheduled, task_type := .initial_learning,
    source_topic_id := some "", scheduled_date := some 0, scheduled_slot := some 0 }

/-- The scored tuple `(task, score, breakdown)` that `rank_tasks` builds for
one task. -/
noncomputable def scoredTriple (t : StudyTask) (current_date horizon : ℤ) :
    StudyTask × ℝ × ScoreBreakdown :=
  (t, (calculateScoreWithBreakdown t current_date horizon).total_score,
    calculateScoreWithBreakdown t current_date horizon)

/-- Guarantees that the normalizer and the value-object validators establish
before `generate` runs: session length at least 15, non-negative break,
buffer fraction in `[0, 1]` (validated to `[0.1, 0.3]`), a non-negative
subject limit, non-negative availability hours, a start time that is a valid
clock time, and non-negative event efforts (validated by `FixedEvent`). -/
def validInputs (events : List FixedEvent) (availability : DailyAvailability)
    (preferences : StudyPreferences) : Prop :=
  15 ≤ preferences.session_length_minutes ∧
  0 ≤ preferences.break_length_minutes ∧
  0 ≤ preferences.buffer_percentage ∧
  preferences.buffer_percentage ≤ 1 ∧
  0 ≤ preferences.max_subjects_per_day ∧
  0 ≤ availability.weekday_hours ∧
  0 ≤ availability.weekend_hours ∧
  0 ≤ availability.start_time ∧
  availability.start_time ≤ 23 * 60 + 59 ∧
  ∀ e ∈ events, 0 ≤ e.estimated_effort_hours

/-- The per-day allocation invariant tying a day's `DayCapacity` to its
`DaySchedule`: capacity is never negative, recorded study minutes plus the
remaining capacity never exceed the day's raw total, the total matches the
availability for the date, the schedule's subject set mirrors the capacity's
and the slots, the subject count respects the limit, no slot is a break, and
the day's next free time is a valid clock time. -/
def dayInv (availability : DailyAvailability) (preferences : StudyPreferences)
    (d : ℤ) (c : DayCapacity) (s : DaySchedule) : Prop :=
  0 ≤ c.available_minutes ∧
  s.total_study_minutes + c.available_minutes ≤ c.total_minutes ∧
  c.total_minutes = hoursToMinutes (availability.get_hours_for_date d) ∧
  s.subjects_covered = c.subjects_used ∧
  (c.subjects_used.card : ℤ) ≤ preferences.max_subjects_per_day ∧
  s.subjects_covered = (s.slots.map (fun sl => sl.subject)).toFinset ∧
  (∀ sl ∈ s.slots, sl.is_break = false) ∧
  0 ≤ c.next_available_time ∧
  c.next_available_time ≤ 23 * 60 + 59

/-- The allocation invariant over the scheduler's capacity map and schedule
map: schedule keys are unique, the two maps have the same keys, and every
day satisfies `dayInv`. -/
def mapsInv (availability : DailyAvailability) (preferences : StudyPreferences)
    (capMap : List (ℤ × DayCapacity)) (schedule : List (ℤ × DaySchedule)) : Prop :=
  (schedule.map Prod.fst).Nodup ∧
  (∀ d s, schedule.lookup d = some s → ∃ c, capMap.lookup d = some c) ∧
  (∀ d c, capMap.lookup d = some c →
    ∃ s, schedule.lookup d = some s ∧ dayInv availability preferences d c s)

/-- A date-like input as seen by `DateTimeUtils.parse_date`: an
already-parsed date object, a string that parses (under ISO or one of the
fallback `strptime` formats) to a given day, or a string matching none of
the formats. The concrete format matching is abstracted into the
constructor choice; the normalizer's control flow depends on it only
through success or failure. -/
inductive DateInput where
  | dateVal (d : ℤ)
  | parsableStr (s : String) (d : ℤ)
  | unparsableStr (s : String)
deriving DecidableEq

/-- `DateTimeUtils.parse_date(input, default=None)`: `None` falls back to the
caller's `today`, date objects pass through, strings parse or raise
`ValueError` — raising is modelled as `Except.error`. -/
def parseDate (date_input : Option DateInput) (today : ℤ) : Except String ℤ :=
  match date_input with
  | none => .ok today
  | some (.dateVal d) => .ok d
  | some (.parsableStr _ d) => .ok d
  | some (.unparsableStr s) => .error ("Cannot parse date: " ++ s)

/-- Does this optional date input hold a string no format can parse? -/
def DateInput.isUnparsable : Option DateInput → Bool
  | some (.unparsableStr _) => true
  | _ => false

/-- A raw event dict for `InputNormalizer.normalize_events`, with the
alternate key lookups (`type`, `date`, `deadline`, `priority`,
`effort_hours`) already resolved to one value per field. -/
structure RawEvent where
  id : Option String := none
  event_type : Option String := none
  subject : Option String := none
  topic : Option String := none
  target_date : Option DateInput := none
  priority_level : Option ℚ := none
  estimated_effort_hours : Option ℚ := none
  description : Option String := none
deriving DecidableEq

/-- `EventType(s)` on the lower-cased string, with the `ValueError` fallback
to `deadline` of `normalize_events`. -/
def eventTypeOfString (s : String) : EventType :=
  if s.toLower = "exam" then .exam
  else if s.toLower = "assignment" then .assignment
  else if s.toLower = "deadline" then .deadline
  else if s.toLower = "lecture" then .lecture
  else if s.toLower = "lab" then .lab
  else .deadline

/-- The body of the `normalize_events` loop for one record (a missing id's
generated uuid is modelled by the fixed string "uuid"). -/
def normalizeEvent (today : ℤ) (data : RawEvent) : Except String FixedEvent :=
  let event_type := eventTypeOfString (data.event_type.getD "deadline")
  match parseDate data.target_date today with
  | .error e => .error e
  | .ok target_date =>
    .ok { id := data.id.getD "uuid",
          event_type := event_type,
          subject := data.subject.getD "Unknown",
          topic := data.topic,
          target_date := target_date,
          priority_level := ratTrunc (clamp (data.priority_level.getD 5) 1 10),
          estimated_effort_hours := data.estimated_effort_hours.getD 2,
          description := data.description.getD "" }

/-- `InputNormalizer.normalize_events`: the first unparseable date aborts the
whole normalization (the Python loop lets the `ValueError` escape). -/
def normalizeEvents (today : ℤ) (events_data : List RawEvent) :
    Except String (List FixedEvent) :=
  events_data.foldl (fun acc data =>
    match acc with
    | .error e => .error e
    | .ok evs =>
      match normalizeEvent today data with
      | .error e => .error e
      | .ok ev => .ok (evs ++ [ev]))
    (.ok [])

/-- A raw availability dict for `normalize_availability` (the `parse_time`
fields are abstracted to already-parsed minute values). -/
structure RawAvailability where
  weekday_hours : Option ℚ := none
  weekend_hours : Option ℚ := none
  start_time : Option ℤ := none
  end_time : Option ℤ := none
  excluded_dates : List DateInput := []
deriving DecidableEq

/-- `InputNormalizer.normalize_availability`: each excluded date is parsed
inside a `try/except ValueError: continue`, so failures are skipped. -/
def normalizeAvailability (today : ℤ) (availability_data : RawAvailability) :
    DailyAvailability :=
  let excluded_dates := availability_data.excluded_dates.foldl (fun acc d =>
    match parseDate (some d) today with
    | .ok v => acc ++ [v]
    | .error _ => acc) []
  { weekday_hours := availability_data.weekday_hours.getD 4,
    weekend_hours := availability_data.weekend_hours.getD 6,
    start_time := availability_data.start_time.getD (9 * 60),
    end_time := availability_data.end_time.getD (21 * 60),
    excluded_dates := excluded_dates }

/-! ### Arithmetic helper lemmas -/

theorem ratTrunc_of_nonneg {q : ℚ} (h : 0 ≤ q) : ratTrunc q = ⌊q⌋ := by
  simp [ratTrunc, h]

theorem hoursToMinutes_nonneg {h : ℚ} (hh : 0 ≤ h) : 0 ≤ hoursToMinutes h := by
  rw [hoursToMinutes, ratTrunc_of_nonneg (by positivity)]
  exact Int.le_floor.mpr (by positivity)

theorem int_ceil_div (a b : ℤ) (hb : 0 < b) : ⌈(a : ℚ) / (b : ℚ)⌉ = (a + b - 1) / b := by
  have hb0 : (0 : ℚ) < (b : ℚ) := by exact_mod_cast hb
  rw [Int.ceil_eq_iff]
  have hdm := Int.ediv_add_emod (a + b - 1) b
  have hm0 : 0 ≤ (a + b - 1) % b := Int.emod_nonneg _ (by omega)
  have hmlt : (a + b - 1) % b < b := Int.emod_lt_of_pos _ hb
  constructor
  · rw [lt_div_iff₀ hb0]
    have h1 : ((a + b - 1) / b - 1) * b < a := by nlinarith
    exact_mod_cast h1
  · rw [div_le_iff₀ hb0]
    have h2 : a ≤ (a + b - 1) / b * b := by nlinarith
    exact_mod_cast h2

theorem range_distribute_sum (n : ℕ) (mps r : ℤ) (hr0 : 0 ≤ r) :
    (((List.range n).map (fun (i : ℕ) => mps + if (i : ℤ) < r then 1 else 0)).sum) =
      n * mps + min r n := by
  induction n with
  | zero => simp; omega
  | succ k ih =>
    rw [List.range_succ, List.map_append, List.sum_append, ih]
    simp only [List.map_cons, List.map_nil, List.sum_cons, List.sum_nil]
    have hmul : ((k : ℤ) + 1) * mps = (k : ℤ) * mps + mps := by ring
    push_cast
    by_cases hk : (k : ℤ) < r
    · rw [if_pos hk]; omega
    · rw [if_neg hk]; omega

/-- Fundamental bound for the even-distribution loops of the decomposer:
when `total ≤ n * L`, each per-session amount `total.fdiv n` plus the
one-minute remainder adjustment stays at most `L`. -/
theorem distribute_le (total L n : ℤ) (hn : 0 < n) (htot : total ≤ n * L) (i : ℕ) :
    total.fdiv n + (if (i : ℤ) < total.fmod n then 1 else 0) ≤ L := by
  rw [Int.fdiv_eq_ediv _ (by omega), Int.fmod_eq_emod _ (by omega)]
  have hdm := Int.ediv_add_emod total n
  have hq : total / n ≤ L := by
    have h1 : total / n ≤ (n * L) / n := Int.ediv_le_ediv hn htot
    rwa [Int.mul_ediv_cancel_left _ (by omega)] at h1
  by_cases hi : (i : ℤ) < total % n
  · rw [if_pos hi]
    by_cases hql : total / n < L
    · omega
    · exfalso
      have hqe : total / n = L := le_antisymm hq (not_lt.mp hql)
      have hipos : (0 : ℤ) ≤ (i : ℤ) := Int.natCast_nonneg i
      rw [hqe] at hdm
      omega
  · rw [if_neg hi]; omega

theorem ratTrunc_intCast (z : ℤ) : ratTrunc ((z : ℚ)) = z := by
  rcases le_or_lt 0 (z : ℚ) with h | h
  · simp [ratTrunc, h]
  · simp [ratTrunc, not_le.mpr h, le_of_lt h]

/-- The total never exceeds the distributed capacity `num_sessions * L`. -/
theorem total_le_sessions_mul (total L : ℤ) (hL : 0 < L) :
    total ≤ max 1 ((total + L - 1).fdiv L) * L := by
  rw [Int.fdiv_eq_ediv _ (by omega)]
  have hdm := Int.ediv_add_emod (total + L - 1) L
  have hm0 : 0 ≤ (total + L - 1) % L := Int.emod_nonneg _ (by omega)
  have hmlt : (total + L - 1) % L < L := Int.emod_lt_of_pos _ hL
  have h1 : total ≤ ((total + L - 1) / L) * L := by nlinarith
  have h2 : ((total + L - 1) / L) * L ≤ max 1 ((total + L - 1) / L) * L :=
    mul_le_mul_of_nonneg_right (le_max_right _ _) (by omega)
  omega

/-- Summing the even-distribution list recovers the exact total when every
per-session amount fits under the session length. -/
theorem range_min_distribute_sum (total L n : ℤ) (hn : 0 < n) (hle : total ≤ n * L) :
    ((List.range n.toNat).map (fun (i : ℕ) =>
        min (total.fdiv n + if (i : ℤ) < total.fmod n then 1 else 0) L)).sum = total := by
  have habs : ∀ (i : ℕ), (fun (i : ℕ) =>
      min (total.fdiv n + if (i : ℤ) < total.fmod n then 1 else 0) L) i =
      (fun (i : ℕ) => total.fdiv n + if (i : ℤ) < total.fmod n then 1 else 0) i :=
    fun i => min_eq_left (distribute_le total L n hn hle i)
  rw [List.map_congr_left (fun i _ => habs i)]
  rw [range_distribute_sum _ _ _ (Int.fmod_nonneg' total hn)]
  rw [Int.toNat_of_nonneg (by omega)]
  have hmlt : total.fmod n < n := Int.fmod_lt_of_pos total hn
  have hdm := Int.fdiv_add_fmod total n
  have hmin : min (total.fmod n) n = total.fmod n := min_eq_left (le_of_lt hmlt)
  have hcomm : n * total.fdiv n = total.fdiv n * n := by ring
  omega

/-- Claim C1: for an event of effort `h` hours and session length `L`,
`decompose_event` yields exactly `max(1, ceil(total / L))` tasks (where
`total = int(h * 60)`), each at most `L` minutes, whose minutes sum to
exactly `total` — in particular to exactly `h * 60` whenever `h * 60` is a
whole number of minutes. -/
theorem decompose_event_spec (L : ℤ) (counter : ℕ) (event : FixedEvent)
    (hL : 15 ≤ L) (heffort : 0 ≤ event.estimated_effort_hours) :
    ((decomposeEvent L counter event).1.length : ℤ) =
      max 1 ⌈(hoursToMinutes event.estimated_effort_hours : ℚ) / (L : ℚ)⌉ ∧
    (∀ t ∈ (decomposeEvent L counter event).1, t.required_minutes ≤ L) ∧
    ((decomposeEvent L counter event).1.map (fun t => t.required_minutes)).sum =
      hoursToMinutes event.estimated_effort_hours ∧
    (∀ m : ℤ, (60 : ℚ) * event.estimated_effort_hours = (m : ℚ) →
      ((decomposeEvent L counter event).1.map (fun t => t.required_minutes)).sum = m) := by
  have hLpos : (0 : ℤ) < L := by omega
  have hnpos : 0 < max 1 ((hoursToMinutes event.estimated_effort_hours + L - 1).fdiv L) :=
    lt_of_lt_of_le one_pos (le_max_left _ _)
  have hmap : (decomposeEvent L counter event).1.map (fun t => t.required_minutes) =
      (List.range (max 1 ((hoursToMinutes event.estimated_effort_hours + L - 1).fdiv L)).toNat).map
        (fun (i : ℕ) =>
          min ((hoursToMinutes event.estimated_effort_hours).fdiv
                (max 1 ((hoursToMinutes event.estimated_effort_hours + L - 1).fdiv L)) +
              if (i : ℤ) < (hoursToMinutes event.estimated_effort_hours).fmod
                (max 1 ((hoursToMinutes event.estimated_effort_hours + L - 1).fdiv L))
              then 1 else 0) L) := by
    simp only [decomposeEvent, List.map_map]
    rfl
  have hsum : ((decomposeEvent L counter event).1.map (fun t => t.required_minutes)).sum =
      hoursToMinutes event.estimated_effort_hours := by
    rw [hmap]
    exact range_min_distribute_sum _ _ _ hnpos (total_le_sessions_mul _ _ hLpos)
  refine ⟨?_, ?_, hsum, ?_⟩
  · have hlen : (decomposeEvent L counter event).1.length =
        (max 1 ((hoursToMinutes event.estimated_effort_hours + L - 1).fdiv L)).toNat := by
      simp only [decomposeEvent, List.length_map, List.length_range]
    rw [hlen, Int.toNat_of_nonneg (by omega)]
    rw [int_ceil_div _ _ hLpos, Int.fdiv_eq_ediv _ (by omega)]
  · intro t ht
    simp only [decomposeEvent, List.mem_map, List.mem_range] at ht
    obtain ⟨i, _, rfl⟩ := ht
    exact min_le_right _ _
  · intro m hm
    rw [hsum, hoursToMinutes]
    rw [mul_comm, hm, ratTrunc_intCast]

/-- Witness for C1 at the spec's own example: a 10-hour event with 45-minute
sessions yields 14 tasks summing to exactly 600 minutes. -/
theorem decompose_event_spec_witness :
    (15 : ℤ) ≤ 45 ∧ (0 : ℚ) ≤ (10 : ℚ) ∧
    ((decomposeEvent 45 0 sampleEvent10).1.length : ℤ) = 14 ∧
    ((decomposeEvent 45 0 sampleEvent10).1.map (fun t => t.required_minutes)).sum = 600 := by
  have h := decompose_event_spec 45 0 sampleEvent10 (by norm_num)
    (by norm_num [sampleEvent10])
  refine ⟨by norm_num, by norm_num, ?_, h.2.2.2 600 (by norm_num [sampleEvent10])⟩
  rw [h.1]
  norm_num [sampleEvent10, hoursToMinutes, ratTrunc]
  rw [Int.ceil_eq_iff] <;> norm_num

/-- Claim C2: the deadline component is exactly 1.0 when the days remaining
(deadline minus current date) are non-positive, exactly 0.1 when they reach
the horizon, and otherwise `max(0.1, 1 - sqrt(days_remaining / horizon))`;
in particular any task whose deadline lies strictly before the current date
scores exactly 1.0 on this component. -/
theorem deadline_component_spec (deadline current_date horizon : ℤ) (hh : 0 < horizon) :
    (daysBetween current_date deadline ≤ 0 →
      deadlineComponent (daysBetween current_date deadline) horizon = 1) ∧
    (horizon ≤ daysBetween current_date deadline →
      deadlineComponent (daysBetween current_date deadline) horizon = 0.1) ∧
    (0 < daysBetween current_date deadline → daysBetween current_date deadline < horizon →
      deadlineComponent (daysBetween current_date deadline) horizon =
        max 0.1 (1 - Real.sqrt ((daysBetween current_date deadline : ℝ) / (horizon : ℝ)))) ∧
    (deadline < current_date →
      deadlineComponent (daysBetween current_date deadline) horizon = 1) := by
  simp only [daysBetween]
  refine ⟨?_, ?_, ?_, ?_⟩
  · intro h
    rw [deadlineComponent, if_pos h]
  · intro h
    rw [deadlineComponent, if_neg (by omega), if_pos h]
  · intro h1 h2
    rw [deadlineComponent, if_neg (by omega), if_neg (by omega)]
    rw [show (0.5 : ℝ) = 1 / 2 by norm_num, Real.sqrt_eq_rpow]
    rfl
  · intro h
    rw [deadlineComponent, if_pos (by omega)]

/-- Witness for C2: a deadline one day in the past, horizon 30, scores 1.0. -/
theorem deadline_component_spec_witness :
    (0 : ℤ) < 30 ∧ deadlineComponent (daysBetween 0 (-1)) 30 = 1 :=
  ⟨by norm_num, (deadline_component_spec (-1) 0 30 (by norm_num)).2.2.2 (by norm_num)⟩

theorem clamp_mono {α : Type} [LinearOrder α] {a b lo hi : α} (h : a ≤ b) :
    clamp a lo hi ≤ clamp b lo hi :=
  max_le_max le_rfl (min_le_min le_rfl h)

theorem priorityComponent_mono {a b : ℤ} (h : a ≤ b) :
    priorityComponent a ≤ priorityComponent b := by
  unfold priorityComponent
  have h2 : clamp ((a : ℝ)) 1 10 ≤ clamp ((b : ℝ)) 1 10 :=
    clamp_mono (by exact_mod_cast h)
  linarith

theorem confidenceComponent_anti {a b : ℚ} (h : a ≤ b) :
    confidenceComponent b ≤ confidenceComponent a := by
  unfold confidenceComponent
  have h2 : clamp ((a : ℝ)) 0 1 ≤ clamp ((b : ℝ)) 0 1 :=
    clamp_mono (by exact_mod_cast h)
  linarith

/-- Claim C8: with every other field held fixed, raising the priority never
lowers the urgency score, and lowering the confidence never lowers it. -/
theorem calculate_score_monotone (t : StudyTask) (current_date horizon : ℤ) (p : ℤ) (c : ℚ) :
    (t.priority ≤ p →
      calculateScore t current_date horizon ≤
        calculateScore { t with priority := p } current_date horizon) ∧
    (c ≤ t.confidence_score →
      calculateScore t current_date horizon ≤
        calculateScore { t with confidence_score := c } current_date horizon) := by
  constructor
  · intro hp
    simp only [calculateScore, calculateScoreWithBreakdown]
    apply clamp_mono
    have h1 : priorityComponent t.priority ≤ priorityComponent p := priorityComponent_mono hp
    have hw : defaultWeights.priority_weight = 0.25 := rfl
    nlinarith [h1]
  · intro hc
    simp only [calculateScore, calculateScoreWithBreakdown]
    apply clamp_mono
    have h1 : confidenceComponent t.confidence_score ≤ confidenceComponent c :=
      confidenceComponent_anti hc
    have hw : defaultWeights.confidence_weight = 0.15 := rfl
    nlinarith [h1]

/-- Witness for C8 at a concrete task: priority raised from 5 to 9 and
confidence lowered from 0.5 to 0.1. -/
theorem calculate_score_monotone_witness :
    sampleTask.priority ≤ 9 ∧ (1 / 10 : ℚ) ≤ sampleTask.confidence_score ∧
    calculateScore sampleTask 0 30 ≤
      calculateScore { sampleTask with priority := 9 } 0 30 ∧
    calculateScore sampleTask 0 30 ≤
      calculateScore { sampleTask with confidence_score := 1 / 10 } 0 30 :=
  ⟨by norm_num [sampleTask], by norm_num [sampleTask],
   (calculate_score_monotone sampleTask 0 30 9 (1 / 10)).1 (by norm_num [sampleTask]),
   (calculate_score_monotone sampleTask 0 30 9 (1 / 10)).2 (by norm_num [sampleTask])⟩

/-- Counterexample to claim C5 as stated: `hardTopic` is difficult
(difficulty 0.8 > 0.7), yet with the default 45-minute session length its
decomposition contains tasks longer than 30 minutes (the 10-session cap
clips the session count computed from the 30-minute effective length, and
the per-session clamp uses the configured length, not the effective one). -/
theorem decompose_topic_cap_counterexample :
    (hardTopic.difficulty_score > 7 / 10 ∨ hardTopic.confidence_score < 3 / 10) ∧
    ¬ (∀ t ∈ (decomposeTopic 45 0 hardTopic 100).1, t.required_minutes ≤ 30) := by
  have h1 : topicAdjustedMinutes hardTopic = 630 := by
    rw [topicAdjustedMinutes]
    show ratTrunc _ = 630
    rw [ratTrunc, if_pos (by norm_num [hardTopic, hoursToMinutes, ratTrunc])]
    norm_num [hardTopic, hoursToMinutes, ratTrunc]
  have h2 : topicEffectiveSessionLength 45 hardTopic = 30 := by
    rw [topicEffectiveSessionLength, if_pos (by left; norm_num [hardTopic])]
    norm_num
  have hmap : (decomposeTopic 45 0 hardTopic 100).1.map (fun t => t.required_minutes) =
      (List.range (min (max 1 (((630 : ℤ) + 30 - 1).fdiv 30)) 10).toNat).map
        (fun (i : ℕ) =>
          min (max ((630 : ℤ).fdiv (min (max 1 (((630 : ℤ) + 30 - 1).fdiv 30)) 10) +
            if (i : ℤ) < (630 : ℤ).fmod (min (max 1 (((630 : ℤ) + 30 - 1).fdiv 30)) 10)
            then 1 else 0) 15) 45) := by
    simp only [decomposeTopic, h1, h2, List.map_map]
    rfl
  refine ⟨by left; norm_num [hardTopic], fun h => ?_⟩
  have hall : ∀ m ∈ (decomposeTopic 45 0 hardTopic 100).1.map (fun t => t.required_minutes),
      m ≤ 30 := by
    intro m hm
    obtain ⟨t, ht, rfl⟩ := List.mem_map.mp hm
    exact h t ht
  rw [hmap] at hall
  have h45 : (45 : ℤ) ∈ (List.range (min (max 1 (((630 : ℤ) + 30 - 1).fdiv 30)) 10).toNat).map
      (fun (i : ℕ) =>
        min (max ((630 : ℤ).fdiv (min (max 1 (((630 : ℤ) + 30 - 1).fdiv 30)) 10) +
          if (i : ℤ) < (630 : ℤ).fmod (min (max 1 (((630 : ℤ) + 30 - 1).fdiv 30)) 10)
          then 1 else 0) 15) 45) := by decide
  exact absurd (hall 45 h45) (by norm_num)

/-- Claim C5 (amended): for a difficult or low-confidence topic
`decompose_topic` uses the effective session length `min(L, 30)` (and the
configured length `L` for every other topic); every produced task is at most
30 minutes provided the session count `max(1, ceil(adjusted / effective))`
is not clipped by the 10-session cap, and in every case (clipped or not) each
task is at most the configured session length `L`. -/
theorem decompose_topic_session_spec (L : ℤ) (counter : ℕ) (topic : LearningTopic)
    (deadline : ℤ) (hL : 15 ≤ L) :
    ((topic.difficulty_score > 7 / 10 ∨ topic.confidence_score < 3 / 10) →
      topicEffectiveSessionLength L topic = min L 30) ∧
    (¬ (topic.difficulty_score > 7 / 10 ∨ topic.confidence_score < 3 / 10) →
      topicEffectiveSessionLength L topic = L) ∧
    ((topic.difficulty_score > 7 / 10 ∨ topic.confidence_score < 3 / 10) →
      max 1 ((topicAdjustedMinutes topic + topicEffectiveSessionLength L topic - 1).fdiv
        (topicEffectiveSessionLength L topic)) ≤ 10 →
      ∀ t ∈ (decomposeTopic L counter topic deadline).1, t.required_minutes ≤ 30) ∧
    (∀ t ∈ (decomposeTopic L counter topic deadline).1, t.required_minutes ≤ L) := by
  refine ⟨?_, ?_, ?_, ?_⟩
  · intro h
    rw [topicEffectiveSessionLength, if_pos h]
  · intro h
    rw [topicEffectiveSessionLength, if_neg h]
  · intro hhard hcap t ht
    have heff : topicEffectiveSessionLength L topic = min L 30 := by
      rw [topicEffectiveSessionLength, if_pos hhard]
    have heff15 : 15 ≤ topicEffectiveSessionLength L topic := by
      rw [heff]; omega
    have heffpos : 0 < topicEffectiveSessionLength L topic := by omega
    have hn : min (max 1 ((topicAdjustedMinutes topic +
        topicEffectiveSessionLength L topic - 1).fdiv
        (topicEffectiveSessionLength L topic))) 10 =
        max 1 ((topicAdjustedMinutes topic + topicEffectiveSessionLength L topic - 1).fdiv
          (topicEffectiveSessionLength L topic)) := min_eq_left hcap
    simp only [decomposeTopic, List.mem_map, List.mem_range] at ht
    obtain ⟨i, _, rfl⟩ := ht
    show min (max _ 15) L ≤ 30
    rw [hn]
    have hfit := distribute_le (topicAdjustedMinutes topic)
      (topicEffectiveSessionLength L topic)
      (max 1 ((topicAdjustedMinutes topic + topicEffectiveSessionLength L topic - 1).fdiv
        (topicEffectiveSessionLength L topic)))
      (lt_of_lt_of_le one_pos (le_max_left _ _))
      (total_le_sessions_mul _ _ heffpos) i
    have h30 : topicEffectiveSessionLength L topic ≤ 30 := by rw [heff]; omega
    calc min (max ((topicAdjustedMinutes topic).fdiv
            (max 1 ((topicAdjustedMinutes topic + topicEffectiveSessionLength L topic - 1).fdiv
              (topicEffectiveSessionLength L topic))) +
            (if (i : ℤ) < (topicAdjustedMinutes topic).fmod
              (max 1 ((topicAdjustedMinutes topic + topicEffectiveSessionLength L topic - 1).fdiv
                (topicEffectiveSessionLength L topic))) then 1 else 0)) 15) L
        ≤ max ((topicAdjustedMinutes topic).fdiv
            (max 1 ((topicAdjustedMinutes topic + topicEffectiveSessionLength L topic - 1).fdiv
              (topicEffectiveSessionLength L topic))) +
            (if (i : ℤ) < (topicAdjustedMinutes topic).fmod
              (max 1 ((topicAdjustedMinutes topic + topicEffectiveSessionLength L topic - 1).fdiv
                (topicEffectiveSessionLength L topic))) then 1 else 0)) 15 := min_le_left _ _
      _ ≤ max (topicEffectiveSessionLength L topic) 15 := max_le_max hfit le_rfl
      _ = topicEffectiveSessionLength L topic := max_eq_left heff15
      _ ≤ 30 := h30
  · intro t ht
    simp only [decomposeTopic, List.mem_map, List.mem_range] at ht
    obtain ⟨i, _, rfl⟩ := ht
    exact min_le_right _ _

/-- Witness for the amended C5: a difficult two-hour topic needs seven
30-minute sessions (the cap does not clip), so every task is at most 30
minutes; and for the clipped `hardTopic` every task still fits 45 minutes. -/
theorem decompose_topic_session_spec_witness :
    (smallHardTopic.difficulty_score > 7 / 10 ∨ smallHardTopic.confidence_score < 3 / 10) ∧
    max 1 ((topicAdjustedMinutes smallHardTopic +
      topicEffectiveSessionLength 45 smallHardTopic - 1).fdiv
      (topicEffectiveSessionLength 45 smallHardTopic)) ≤ 10 ∧
    (∀ t ∈ (decomposeTopic 45 0 smallHardTopic 100).1, t.required_minutes ≤ 30) ∧
    (∀ t ∈ (decomposeTopic 45 0 hardTopic 100).1, t.required_minutes ≤ 45) := by
  have h1 : topicAdjustedMinutes smallHardTopic = 210 := by
    rw [topicAdjustedMinutes]
    show ratTrunc _ = 210
    rw [ratTrunc, if_pos (by norm_num [smallHardTopic, hoursToMinutes, ratTrunc])]
    norm_num [smallHardTopic, hoursToMinutes, ratTrunc]
  have h2 : topicEffectiveSessionLength 45 smallHardTopic = 30 := by
    rw [topicEffectiveSessionLength, if_pos (by left; norm_num [smallHardTopic])]
    norm_num
  have hcap : max 1 ((topicAdjustedMinutes smallHardTopic +
      topicEffectiveSessionLength 45 smallHardTopic - 1).fdiv
      (topicEffectiveSessionLength 45 smallHardTopic)) ≤ 10 := by
    rw [h1, h2]; decide
  refine ⟨by left; norm_num [smallHardTopic], hcap, ?_, ?_⟩
  · exact (decompose_topic_session_spec 45 0 smallHardTopic 100 (by norm_num)).2.2.1
      (by left; norm_num [smallHardTopic]) hcap
  · exact (decompose_topic_session_spec 45 0 hardTopic 100 (by norm_num)).2.2.2

theorem rankLE_iff (a b : StudyTask × ℝ × ScoreBreakdown) :
    rankLE a b = true ↔
      (b.2.1 < a.2.1 ∨ (a.2.1 = b.2.1 ∧ a.1.deadline ≤ b.1.deadline)) := by
  simp [rankLE]

theorem rankLE_trans (a b c : StudyTask × ℝ × ScoreBreakdown)
    (h1 : rankLE a b) (h2 : rankLE b c) : rankLE a c := by
  rw [rankLE_iff] at *
  rcases h1 with h1 | ⟨h1e, h1d⟩ <;> rcases h2 with h2 | ⟨h2e, h2d⟩
  · exact Or.inl (lt_trans h2 h1)
  · exact Or.inl (h2e ▸ h1)
  · exact Or.inl (h1e ▸ h2)
  · exact Or.inr ⟨h1e.trans h2e, le_trans h1d h2d⟩

theorem rankLE_total (a b : StudyTask × ℝ × ScoreBreakdown) :
    rankLE a b || rankLE b a := by
  rw [Bool.or_eq_true, rankLE_iff, rankLE_iff]
  rcases lt_trichotomy a.2.1 b.2.1 with h | h | h
  · exact Or.inr (Or.inl h)
  · rcases le_total a.1.deadline b.1.deadline with hd | hd
    · exact Or.inl (Or.inr ⟨h, hd⟩)
    · exact Or.inr (Or.inr ⟨h.symm, hd⟩)
  · exact Or.inl (Or.inl h)

/-- Claim C4: `rank_tasks` returns a permutation of the scored input tuples,
ordered with scores non-increasing and score ties broken by ascending
deadline, and entries equal in both keys keep their relative input order
(Python's `list.sort` is a stable merge sort). -/
theorem rank_tasks_spec (tasks : List StudyTask) (current_date horizon : ℤ) :
    (rankTasks tasks current_date horizon).Perm (scoredTasks tasks current_date horizon) ∧
    List.Pairwise (fun a b => b.2.1 < a.2.1 ∨ (a.2.1 = b.2.1 ∧ a.1.deadline ≤ b.1.deadline))
      (rankTasks tasks current_date horizon) ∧
    (∀ a b : StudyTask × ℝ × ScoreBreakdown, a.2.1 = b.2.1 → a.1.deadline = b.1.deadline →
      [a, b].Sublist (scoredTasks tasks current_date horizon) →
      [a, b].Sublist (rankTasks tasks current_date horizon)) := by
  refine ⟨List.mergeSort_perm _ _, ?_, ?_⟩
  · have h := List.sorted_mergeSort rankLE_trans rankLE_total
      (scoredTasks tasks current_date horizon)
    exact h.imp (fun hab => (rankLE_iff _ _).mp hab)
  · intro a b hs hd hsub
    exact List.sublist_mergeSort rankLE_trans rankLE_total
      (List.pairwise_pair.mpr ((rankLE_iff a b).mpr (Or.inr ⟨hs, le_of_eq hd⟩))) hsub

/-- Witness for C4: two tasks identical but for their id tie on both keys and
keep their input order through the ranking. -/
theorem rank_tasks_spec_witness :
    (scoredTriple sampleTask 0 30).2.1 = (scoredTriple twinTask 0 30).2.1 ∧
    (scoredTriple sampleTask 0 30).1.deadline = (scoredTriple twinTask 0 30).1.deadline ∧
    [scoredTriple sampleTask 0 30, scoredTriple twinTask 0 30].Sublist
      (scoredTasks [sampleTask, twinTask] 0 30) ∧
    [scoredTriple sampleTask 0 30, scoredTriple twinTask 0 30].Sublist
      (rankTasks [sampleTask, twinTask] 0 30) := by
  have hs : (scoredTriple sampleTask 0 30).2.1 = (scoredTriple twinTask 0 30).2.1 := rfl
  have hd : (scoredTriple sampleTask 0 30).1.deadline =
      (scoredTriple twinTask 0 30).1.deadline := rfl
  have hsub : [scoredTriple sampleTask 0 30, scoredTriple twinTask 0 30].Sublist
      (scoredTasks [sampleTask, twinTask] 0 30) := List.Sublist.refl _
  exact ⟨hs, hd, hsub, (rank_tasks_spec [sampleTask, twinTask] 0 30).2.2 _ _ hs hd hsub⟩

theorem normalizeEvents_foldl_error (today : ℤ) (l : List RawEvent) (e : String) :
    l.foldl (fun acc data =>
      match acc with
      | .error e => .error e
      | .ok evs =>
        match normalizeEvent today data with
        | .error e => .error e
        | .ok ev => .ok (evs ++ [ev]))
      (Except.error e) = Except.error e := by
  induction l with
  | nil => rfl
  | cons d l ih => exact ih

theorem normalizeEvents_foldl_unparsable (today : ℤ) (l : List RawEvent) :
    ∀ evs : List FixedEvent, (∃ e ∈ l, DateInput.isUnparsable e.target_date) →
      ∃ msg, l.foldl (fun acc data =>
        match acc with
        | .error e => .error e
        | .ok evs =>
          match normalizeEvent today data with
          | .error e => .error e
          | .ok ev => .ok (evs ++ [ev]))
        (Except.ok evs) = Except.error msg := by
  induction l with
  | nil => rintro evs ⟨e, he, -⟩; exact absurd he (List.not_mem_nil e)
  | cons d l ih =>
    rintro evs ⟨e, he, hu⟩
    rcases List.mem_cons.mp he with rfl | he2
    · obtain ⟨s, hs⟩ : ∃ s, e.target_date = some (.unparsableStr s) := by
        cases ht : e.target_date with
        | none => rw [ht] at hu; exact absurd hu (by simp [DateInput.isUnparsable])
        | some di =>
          cases di with
          | dateVal d => rw [ht] at hu; exact absurd hu (by simp [DateInput.isUnparsable])
          | parsableStr s d => rw [ht] at hu; exact absurd hu (by simp [DateInput.isUnparsable])
          | unparsableStr s => exact ⟨s, rfl⟩
      refine ⟨"Cannot parse date: " ++ s, ?_⟩
      have hne : normalizeEvent today e = .error ("Cannot parse date: " ++ s) := by
        rw [normalizeEvent, hs]
        rfl
      rw [List.foldl_cons]
      simp only [hne]
      exact normalizeEvents_foldl_error today l _
    · rw [List.foldl_cons]
      cases hne : normalizeEvent today d with
      | error msg =>
        exact ⟨msg, normalizeEvents_foldl_error today l msg⟩
      | ok ev =>
        obtain ⟨msg, hmsg⟩ := ih (evs ++ [ev]) ⟨e, he2, hu⟩
        exact ⟨msg, hmsg⟩

theorem excluded_foldl_filterMap (today : ℤ) (l : List DateInput) :
    ∀ acc : List ℤ, l.foldl (fun acc d =>
      match parseDate (some d) today with
      | .ok v => acc ++ [v]
      | .error _ => acc) acc =
      acc ++ l.filterMap (fun d =>
        match parseDate (some d) today with
        | .ok v => some v
        | .error _ => none) := by
  induction l with
  | nil => intro acc; simp
  | cons d l ih =>
    intro acc
    rw [List.foldl_cons, List.filterMap_cons]
    cases hp : parseDate (some d) today with
    | ok v => simp only [hp, ih (acc ++ [v]), List.append_assoc, List.singleton_append]
    | error e => simp only [hp, ih acc]

/-- Counterexample to claim C9 as stated: an unparseable `excluded_dates`
entry does not abort normalization — `normalize_availability` catches the
`ValueError` and silently drops the entry, returning a complete
`DailyAvailability` with an empty exclusion list. -/
theorem normalize_availability_drop_counterexample :
    normalizeAvailability 0 { excluded_dates := [.unparsableStr "not-a-date"] } =
      { weekday_hours := 4, weekend_hours := 6, start_time := 9 * 60,
        end_time := 21 * 60, excluded_dates := [] } := rfl

/-- Claim C9 (amended): an unparseable event `target_date` string raises a
validation error that aborts `normalize_events` (never silently defaulted),
but unparseable entries of `excluded_dates` are silently dropped by
`normalize_availability`: the normalized exclusion list keeps exactly the
parseable entries, in input order. -/
theorem normalize_dates_error_spec (today : ℤ) (events_data : List RawEvent)
    (availability_data : RawAvailability) :
    ((∃ e ∈ events_data, DateInput.isUnparsable e.target_date) →
      ∃ msg, normalizeEvents today events_data = .error msg) ∧
    (normalizeAvailability today availability_data).excluded_dates =
      availability_data.excluded_dates.filterMap (fun d =>
        match parseDate (some d) today with
        | .ok v => some v
        | .error _ => none) := by
  constructor
  · intro h
    exact normalizeEvents_foldl_unparsable today events_data [] h
  · show availability_data.excluded_dates.foldl _ [] = _
    rw [excluded_foldl_filterMap]
    simp

/-- Witness for the amended C9: one event whose date string parses under no
format makes `normalize_events` return an error. -/
theorem normalize_dates_error_spec_witness :
    (∃ e ∈ [({ target_date := some (.unparsableStr "99 Doomsday 2024") } : RawEvent)],
      DateInput.isUnparsable e.target_date) ∧
    ∃ msg, normalizeEvents 0
      [({ target_date := some (.unparsableStr "99 Doomsday 2024") } : RawEvent)] =
        .error msg := by
  have hmem : ({ target_date := some (.unparsableStr "99 Doomsday 2024") } : RawEvent) ∈
      [({ target_date := some (.unparsableStr "99 Doomsday 2024") } : RawEvent)] :=
    List.mem_singleton.mpr rfl
  have hex : ∃ e ∈ [({ target_date := some (.unparsableStr "99 Doomsday 2024") } : RawEvent)],
      DateInput.isUnparsable e.target_date := ⟨_, hmem, rfl⟩
  exact ⟨hex, (normalize_dates_error_spec 0 _ { }).1 hex⟩

/-! ### Association-list, clock-time and capacity helper lemmas -/

theorem updateAssoc_keys {β : Type} (l : List (ℤ × β)) (k : ℤ) (v : β) :
    (updateAssoc l k v).map Prod.fst = l.map Prod.fst := by
  rw [updateAssoc, List.map_map]
  apply List.map_congr_left
  intro p _
  by_cases h : p.1 = k
  · simp [h]
  · simp [h]

theorem lookup_cons_ne {β : Type} (a : ℤ) (b : β) (es : List (ℤ × β)) (d : ℤ)
    (h : d ≠ a) : ((a, b) :: es).lookup d = es.lookup d := by
  rw [List.lookup_cons]
  rw [show (d == a) = false from beq_eq_false_iff_ne.mpr h]

theorem updateAssoc_cons {β : Type} (p : ℤ × β) (l : List (ℤ × β)) (k : ℤ) (v : β) :
    updateAssoc (p :: l) k v = (if p.1 = k then (k, v) else p) :: updateAssoc l k v := rfl

theorem lookup_updateAssoc_ne {β : Type} (l : List (ℤ × β)) (k : ℤ) (v : β) (d : ℤ)
    (h : d ≠ k) : (updateAssoc l k v).lookup d = l.lookup d := by
  induction l with
  | nil => rfl
  | cons p l ih =>
    obtain ⟨a, b⟩ := p
    rw [updateAssoc_cons]
    by_cases hp : (a, b).1 = k
    · simp only at hp
      subst hp
      rw [if_pos rfl, lookup_cons_ne _ _ _ _ h, lookup_cons_ne _ _ _ _ h]
      exact ih
    · rw [if_neg hp]
      by_cases hd : d = a
      · subst hd
        simp
      · rw [lookup_cons_ne _ _ _ _ hd, lookup_cons_ne _ _ _ _ hd]
        exact ih

theorem lookup_updateAssoc_eq {β : Type} (l : List (ℤ × β)) (k : ℤ) (v : β) (c : β)
    (h : l.lookup k = some c) : (updateAssoc l k v).lookup k = some v := by
  induction l with
  | nil => simp at h
  | cons p l ih =>
    obtain ⟨a, b⟩ := p
    rw [updateAssoc_cons]
    by_cases hp : (a, b).1 = k
    · simp only at hp
      subst hp
      rw [if_pos rfl]
      simp
    · simp only at hp
      rw [if_neg hp]
      have hk : k ≠ a := fun hk => hp hk.symm
      rw [lookup_cons_ne _ _ _ _ hk]
      rw [lookup_cons_ne _ _ _ _ hk] at h
      exact ih h

theorem lookup_of_mem_nodup {β : Type} (l : List (ℤ × β))
    (hnd : (l.map Prod.fst).Nodup) (d : ℤ) (s : β) (h : (d, s) ∈ l) :
    l.lookup d = some s := by
  induction l with
  | nil => exact absurd h (List.not_mem_nil _)
  | cons p l ih =>
    obtain ⟨a, b⟩ := p
    rw [List.map_cons, List.nodup_cons] at hnd
    rcases List.mem_cons.mp h with heq | h2
    · rw [show d = a from congrArg Prod.fst heq, show s = b from congrArg Prod.snd heq]
      simp
    · have hda : d ≠ a := by
        intro hda
        exact hnd.1 (hda ▸ List.mem_map.mpr ⟨(d, s), h2, rfl⟩)
      rw [lookup_cons_ne _ _ _ _ hda]
      exact ih hnd.2 h2

theorem lookup_map_key {β : Type} (f : ℤ → β) (l : List ℤ) (d : ℤ) (hd : d ∈ l) :
    (l.map (fun x => (x, f x))).lookup d = some (f d) := by
  induction l with
  | nil => exact absurd hd (List.not_mem_nil _)
  | cons a l ih =>
    rw [List.map_cons]
    by_cases hda : d = a
    · subst hda
      simp
    · rw [lookup_cons_ne _ _ _ _ hda]
      exact ih (List.mem_cons.mp hd |>.resolve_left hda)

theorem lookup_map_key_none {β : Type} (f : ℤ → β) (l : List ℤ) (d : ℤ) (hd : d ∉ l) :
    (l.map (fun x => (x, f x))).lookup d = none := by
  induction l with
  | nil => rfl
  | cons a l ih =>
    rw [List.map_cons,
      lookup_cons_ne _ _ _ _ (fun h => hd (by rw [h]; exact List.mem_cons_self a l))]
    exact ih (fun h => hd (List.mem_cons_of_mem a h))

theorem dateRange_nodup (s e : ℤ) : (dateRange s e).Nodup := by
  rw [dateRange]
  refine List.Nodup.map ?_ (List.nodup_range _)
  intro a b hab
  simp only at hab
  omega

theorem mem_dateRange_iff (s e d : ℤ) : d ∈ dateRange s e ↔ s ≤ d ∧ d ≤ e := by
  constructor
  · intro h
    rw [dateRange] at h
    obtain ⟨i, hi, rfl⟩ := List.mem_map.mp h
    have h2 := List.mem_range.mp hi
    omega
  · rintro ⟨h1, h2⟩
    rw [dateRange]
    exact List.mem_map.mpr ⟨(d - s).toNat, List.mem_range.mpr (by omega), by omega⟩

theorem addMinutesToTime_nonneg (t m : ℤ) : 0 ≤ addMinutesToTime t m := by
  unfold addMinutesToTime
  dsimp only
  split_ifs <;> omega

theorem addMinutesToTime_le (t m : ℤ) : addMinutesToTime t m ≤ 23 * 60 + 59 := by
  unfold addMinutesToTime
  dsimp only
  split_ifs <;> omega

theorem addMinutesToTime_span_le (t m : ℤ) (h0 : 0 ≤ t) (hm : 0 ≤ m) :
    addMinutesToTime t m - t ≤ m := by
  unfold addMinutesToTime
  dsimp only
  split_ifs <;> omega

theorem can_fit_session_spec (c : DayCapacity) (m : ℤ) (subj topic : String)
    (maxs : ℤ) (h : c.can_fit_session m subj topic maxs = true) :
    m ≤ c.available_minutes ∧ c.sessions_used < c.max_sessions ∧
    (subj ∈ c.subjects_used ∨ (c.subjects_used.card : ℤ) < maxs) := by
  rw [DayCapacity.can_fit_session] at h
  by_cases h1 : c.available_minutes < m
  · rw [if_pos h1] at h
    simp at h
  · rw [if_neg h1] at h
    by_cases h2 : c.max_sessions ≤ c.sessions_used
    · rw [if_pos h2] at h
      simp at h
    · rw [if_neg h2] at h
      by_cases h3 : subj ∉ c.subjects_used ∧ maxs ≤ (c.subjects_used.card : ℤ)
      · rw [if_pos h3] at h
        simp at h
      · push_neg at h3
        refine ⟨by omega, by omega, ?_⟩
        by_cases hs : subj ∈ c.subjects_used
        · exact Or.inl hs
        · exact Or.inr (h3 hs)

theorem add_slot_eq (ds : DaySchedule) (slot : TimeSlot) (hb : slot.is_break = false) :
    ds.add_slot slot =
      { ds with
        slots := ds.slots ++ [slot],
        total_study_minutes := ds.total_study_minutes + (slot.end_time - slot.start_time),
        subjects_covered := insert slot.subject ds.subjects_covered } := by
  rw [DaySchedule.add_slot]
  dsimp only
  rw [hb, if_neg Bool.false_ne_true]

theorem postDay_fields (preferences : StudyPreferences) (task : StudyTask) (c : DayCapacity)
    (s : DaySchedule) :
    (postDay preferences task c s).slots = s.slots ++ [sessionSlot task c] ∧
    (postDay preferences task c s).total_study_minutes =
      s.total_study_minutes +
        ((sessionSlot task c).end_time - (sessionSlot task c).start_time) ∧
    (postDay preferences task c s).subjects_covered =
      insert task.subject s.subjects_covered := by
  rw [postDay]
  rw [add_slot_eq _ _ rfl]
  split_ifs <;> exact ⟨rfl, rfl, rfl⟩

theorem postCap_fields (preferences : StudyPreferences) (task : StudyTask) (c : DayCapacity) :
    (postCap preferences task c).available_minutes =
      c.available_minutes - task.required_minutes ∧
    (postCap preferences task c).total_minutes = c.total_minutes ∧
    (postCap preferences task c).subjects_used = insert task.subject c.subjects_used ∧
    (postCap preferences task c).next_available_time =
      addMinutesToTime c.next_available_time
        (task.required_minutes + preferences.break_length_minutes) :=
  ⟨rfl, rfl, rfl, rfl⟩

theorem addTaskToSchedule_eq (preferences : StudyPreferences) (task : StudyTask)
    (c : DayCapacity) (d : ℤ) (schedule : List (ℤ × DaySchedule)) (s : DaySchedule)
    (hs : schedule.lookup d = some s) :
    addTaskToSchedule preferences task c d schedule =
      (task.mark_scheduled d (((s.add_slot (sessionSlot task c)).slots.length : ℤ) - 1),
       postCap preferences task c,
       updateAssoc schedule d (postDay preferences task c s)) := by
  rw [addTaskToSchedule, getSched, hs]
  rfl

/-- The allocation core preserves the per-day invariant: a `can_fit_session`
check guards every capacity consumption. -/
theorem dayInv_post (availability : DailyAvailability) (preferences : StudyPreferences)
    (d : ℤ) (c : DayCapacity) (s : DaySchedule) (task : StudyTask)
    (hm : 0 ≤ task.required_minutes)
    (hfit : c.can_fit_session task.required_minutes task.subject task.topic
      preferences.max_subjects_per_day = true)
    (h : dayInv availability preferences d c s) :
    dayInv availability preferences d (postCap preferences task c)
      (postDay preferences task c s) := by
  obtain ⟨h1, h2, h3, h4, h5, h6, h7, h8, h9⟩ := h
  obtain ⟨hf1, hf2, hf3⟩ := can_fit_session_spec _ _ _ _ _ hfit
  obtain ⟨hd1, hd2, hd3⟩ := postDay_fields preferences task c s
  obtain ⟨hc1, hc2, hc3, hc4⟩ := postCap_fields preferences task c
  have hspan : (sessionSlot task c).end_time - (sessionSlot task c).start_time ≤
      task.required_minutes := addMinutesToTime_span_le _ _ h8 hm
  refine ⟨?_, ?_, ?_, ?_, ?_, ?_, ?_, ?_, ?_⟩
  · rw [hc1]; omega
  · rw [hd2, hc1, hc2]; omega
  · rw [hc2]; exact h3
  · rw [hd3, hc3, h4]
  · rw [hc3]
    rcases hf3 with hmem | hcard
    · rw [Finset.insert_eq_self.mpr hmem]; exact h5
    · have hins := Finset.card_insert_le task.subject c.subjects_used
      omega
  · rw [hd3, hd1, h6]
    have hmapeq : ((s.slots ++ [sessionSlot task c]).map (fun sl => sl.subject)) =
        s.slots.map (fun sl => sl.subject) ++ [task.subject] := by
      rw [List.map_append]
      rfl
    rw [hmapeq, List.toFinset_append]
    simp [Finset.insert_eq, Finset.union_comm]
  · rw [hd1]
    intro sl hsl
    rcases List.mem_append.mp hsl with hin | hin
    · exact h7 sl hin
    · rw [List.mem_singleton.mp hin]; rfl
  · rw [hc4]; exact addMinutesToTime_nonneg _ _
  · rw [hc4]; exact addMinutesToTime_le _ _

/-- A guarded `_add_task_to_schedule` call preserves the allocation
invariant over both maps. -/
theorem maps_update_inv (availability : DailyAvailability) (preferences : StudyPreferences)
    (task : StudyTask) (d : ℤ) (capMap : List (ℤ × DayCapacity))
    (schedule : List (ℤ × DaySchedule)) (c : DayCapacity)
    (hm : 0 ≤ task.required_minutes)
    (hlook : capMap.lookup d = some c)
    (hfit : c.can_fit_session task.required_minutes task.subject task.topic
      preferences.max_subjects_per_day = true)
    (hinv : mapsInv availability preferences capMap schedule) :
    mapsInv availability preferences
      (updateAssoc capMap d (addTaskToSchedule preferences task c d schedule).2.1)
      ((addTaskToSchedule preferences task c d schedule).2.2) := by
  obtain ⟨hnd, hB, hC⟩ := hinv
  obtain ⟨s, hslook, hday⟩ := hC d c hlook
  rw [addTaskToSchedule_eq preferences task c d schedule s hslook]
  refine ⟨?_, ?_, ?_⟩
  · show ((updateAssoc schedule d (postDay preferences task c s)).map Prod.fst).Nodup
    rw [updateAssoc_keys]; exact hnd
  · intro d' s' hs'
    by_cases hd : d' = d
    · subst hd
      exact ⟨postCap preferences task c, lookup_updateAssoc_eq _ _ _ _ hlook⟩
    · rw [show ((task.mark_scheduled d
          (((s.add_slot (sessionSlot task c)).slots.length : ℤ) - 1),
          postCap preferences task c,
          updateAssoc schedule d (postDay preferences task c s)).2.2 :
            List (ℤ × DaySchedule)) =
          updateAssoc schedule d (postDay preferences task c s) from rfl] at hs'
      rw [lookup_updateAssoc_ne _ _ _ _ hd] at hs'
      obtain ⟨c', hc'⟩ := hB d' s' hs'
      exact ⟨c', by rw [lookup_updateAssoc_ne _ _ _ _ hd]; exact hc'⟩
  · intro d' c' hc'
    by_cases hd : d' = d
    · subst hd
      rw [lookup_updateAssoc_eq _ _ _ _ hlook] at hc'
      obtain rfl : postCap preferences task c = c' := Option.some.inj hc'
      refine ⟨postDay preferences task c s, lookup_updateAssoc_eq _ _ _ _ hslook, ?_⟩
      exact dayInv_post availability preferences d' c s task hm hfit hday
    · rw [lookup_updateAssoc_ne _ _ _ _ hd] at hc'
      obtain ⟨s', hs', hday'⟩ := hC d' c' hc'
      refine ⟨s', ?_, hday'⟩
      show (updateAssoc schedule d (postDay preferences task c s)).lookup d' = some s'
      rw [lookup_updateAssoc_ne _ _ _ _ hd]
      exact hs'

theorem fitsAt_spec (capMap : List (ℤ × DayCapacity)) (preferences : StudyPreferences)
    (d : ℤ) (task : StudyTask) (h : fitsAt capMap preferences d task = true) :
    ∃ c, capMap.lookup d = some c ∧
      c.can_fit_session task.required_minutes task.subject task.topic
        preferences.max_subjects_per_day = true := by
  rw [fitsAt] at h
  cases hl : capMap.lookup d with
  | none => rw [hl] at h; simp at h
  | some c => rw [hl] at h; exact ⟨c, rfl, h⟩

theorem mem_updateAssoc {β : Type} (l : List (ℤ × β)) (k : ℤ) (v : β) (p : ℤ × β)
    (hp : p ∈ updateAssoc l k v) : p ∈ l ∨ p = (k, v) := by
  rw [updateAssoc] at hp
  obtain ⟨q, hq, hpq⟩ := List.mem_map.mp hp
  by_cases hqk : q.1 = k
  · rw [if_pos hqk] at hpq
    exact Or.inr hpq.symm
  · rw [if_neg hqk] at hpq
    exact Or.inl (hpq ▸ hq)

theorem lookup_mem {β : Type} (l : List (ℤ × β)) (d : ℤ) (b : β)
    (h : l.lookup d = some b) : (d, b) ∈ l := by
  induction l with
  | nil => simp at h
  | cons p l ih =>
    obtain ⟨a, c⟩ := p
    by_cases hd : d = a
    · subst hd
      rw [List.lookup_cons_self] at h
      exact List.mem_cons.mpr (Or.inl (by rw [Option.some.inj h]))
    · rw [lookup_cons_ne _ _ _ _ hd] at h
      exact List.mem_cons_of_mem _ (ih h)

/-- `_allocate_task` either performs one guarded `_add_task_to_schedule`
call on some day of the capacity map, or leaves both maps untouched. -/
theorem allocateTask_cases (preferences : StudyPreferences) (cd : ℤ) (task : StudyTask)
    (st : SchedState) :
    (∃ d c, st.capMap.lookup d = some c ∧
      c.can_fit_session task.required_minutes task.subject task.topic
        preferences.max_subjects_per_day = true ∧
      (allocateTask preferences cd task st).2.1.capMap =
        updateAssoc st.capMap d (addTaskToSchedule preferences task c d st.schedule).2.1 ∧
      (allocateTask preferences cd task st).2.1.schedule =
        (addTaskToSchedule preferences task c d st.schedule).2.2) ∨
    ((allocateTask preferences cd task st).2.1.capMap = st.capMap ∧
     (allocateTask preferences cd task st).2.1.schedule = st.schedule) := by
  cases hf : (dateRange cd task.deadline).find? (fun d => fitsAt st.capMap preferences d task) with
  | some d =>
    have hfit : fitsAt st.capMap preferences d task = true := by
      have h0 := List.find?_some hf
      exact h0
    obtain ⟨c, hl, hcf⟩ := fitsAt_spec _ _ _ _ hfit
    left
    refine ⟨d, c, hl, hcf, ?_, ?_⟩
    · rw [allocateTask, hf]
      show (allocAtDate preferences task d st).2.capMap = _
      rw [allocAtDate, hl]
    · rw [allocateTask, hf]
      show (allocAtDate preferences task d st).2.schedule = _
      rw [allocAtDate, hl]
  | none =>
    by_cases hp : task.priority ≤ 5
    · cases hf2 : (([1, 2, 3] : List ℤ).map (fun o => addDays task.deadline o)).find?
          (fun d => fitsAt st.capMap preferences d task) with
      | some f =>
        have hfit2 : fitsAt st.capMap preferences f task = true := by
          have h0 := List.find?_some hf2
          exact h0
        obtain ⟨c, hl, hcf⟩ := fitsAt_spec _ _ _ _ hfit2
        left
        refine ⟨f, c, hl, hcf, ?_, ?_⟩
        · rw [allocateTask, hf, if_pos hp, hf2]
          show (allocAtDate preferences task f st).2.capMap = _
          rw [allocAtDate, hl]
        · rw [allocateTask, hf, if_pos hp, hf2]
          show (allocAtDate preferences task f st).2.schedule = _
          rw [allocAtDate, hl]
      | none =>
        right
        constructor <;> rw [allocateTask, hf, if_pos hp, hf2]
    · right
      constructor <;> rw [allocateTask, hf, if_neg hp]

theorem allocateTask_maps_inv (availability : DailyAvailability)
    (preferences : StudyPreferences) (cd : ℤ) (task : StudyTask) (st : SchedState)
    (hm : 0 ≤ task.required_minutes)
    (h : mapsInv availability preferences st.capMap st.schedule) :
    mapsInv availability preferences (allocateTask preferences cd task st).2.1.capMap
      (allocateTask preferences cd task st).2.1.schedule := by
  rcases allocateTask_cases preferences cd task st with ⟨d, c, hl, hcf, hcm, hsc⟩ | ⟨hcm, hsc⟩
  · rw [hcm, hsc]
    exact maps_update_inv availability preferences task d _ _ c hm hl hcf h
  · rw [hcm, hsc]
    exact h

theorem structInv_addTask (K : List ℤ) (preferences : StudyPreferences) (task : StudyTask)
    (c : DayCapacity) (d : ℤ) (schedule : List (ℤ × DaySchedule))
    (h : structInv K schedule) :
    structInv K (addTaskToSchedule preferences task c d schedule).2.2 := by
  obtain ⟨hk, hb⟩ := h
  constructor
  · show ((updateAssoc schedule d (postDay preferences task c (getSched schedule d))).map
      Prod.fst) = K
    rw [updateAssoc_keys]
    exact hk
  · intro p hp sl hsl
    have hp2 : p ∈ updateAssoc schedule d (postDay preferences task c (getSched schedule d)) :=
      hp
    rcases mem_updateAssoc _ _ _ _ hp2 with hin | rfl
    · exact hb p hin sl hsl
    · obtain ⟨hslots, -, -⟩ :=
        postDay_fields preferences task c (getSched schedule d)
      rw [show ((d, postDay preferences task c (getSched schedule d)).2 : DaySchedule) =
        postDay preferences task c (getSched schedule d) from rfl, hslots] at hsl
      rcases List.mem_append.mp hsl with hin | hin
      · cases hlk : schedule.lookup d with
        | none =>
          rw [getSched, hlk] at hin
          exact absurd hin (List.not_mem_nil _)
        | some s0 =>
          rw [getSched, hlk] at hin
          exact hb (d, s0) (lookup_mem _ _ _ hlk) sl hin
      · rw [List.mem_singleton.mp hin]
        rfl

theorem allocateTask_struct (K : List ℤ) (preferences : StudyPreferences) (cd : ℤ)
    (task : StudyTask) (st : SchedState) (h : structInv K st.schedule) :
    structInv K (allocateTask preferences cd task st).2.1.schedule := by
  rcases allocateTask_cases preferences cd task st with ⟨d, c, _, _, _, hsc⟩ | ⟨_, hsc⟩
  · rw [hsc]
    exact structInv_addTask K preferences task c d st.schedule h
  · rw [hsc]
    exact h

theorem foldl_preserve_mem {α β : Type} (P : β → Prop) (f : β → α → β) :
    ∀ (l : List α) (b : β), (∀ b a, a ∈ l → P b → P (f b a)) → P b → P (l.foldl f b) := by
  intro l
  induction l with
  | nil => intro b _ hb; exact hb
  | cons a l ih =>
    intro b hstep hb
    rw [List.foldl_cons]
    exact ih (f b a) (fun b' a' ha' => hstep b' a' (List.mem_cons_of_mem _ ha'))
      (hstep b a (List.mem_cons_self _ _) hb)

theorem rankTasks_fst_mem (tasks : List StudyTask) (cd horizon : ℤ)
    (trip : StudyTask × ℝ × ScoreBreakdown) (htrip : trip ∈ rankTasks tasks cd horizon) :
    trip.1 ∈ tasks := by
  rw [rankTasks] at htrip
  have h2 := (List.mergeSort_perm (scoredTasks tasks cd horizon) rankLE).mem_iff.mp htrip
  rw [scoredTasks] at h2
  obtain ⟨t, ht, rfl⟩ := List.mem_map.mp h2
  exact ht

theorem scheduleTasks_maps_inv (availability : DailyAvailability)
    (preferences : StudyPreferences) (cd ed : ℤ) (tasks : List StudyTask) (st : SchedState)
    (htasks : ∀ t ∈ tasks, 0 ≤ t.required_minutes)
    (h : mapsInv availability preferences st.capMap st.schedule) :
    mapsInv availability preferences (scheduleTasks preferences cd ed tasks st).2.capMap
      (scheduleTasks preferences cd ed tasks st).2.schedule := by
  rw [scheduleTasks]
  refine foldl_preserve_mem
    (fun (acc : List StudyTask × SchedState) =>
      mapsInv availability preferences acc.2.capMap acc.2.schedule) _ _ _ ?_ h
  intro b trip htrip hPb
  have hmem : trip.1 ∈ tasks :=
    List.mem_of_mem_filter (rankTasks_fst_mem _ _ _ _ htrip)
  exact allocateTask_maps_inv availability preferences cd trip.1 b.2 (htasks _ hmem) hPb

theorem scheduleTasks_struct (K : List ℤ) (preferences : StudyPreferences) (cd ed : ℤ)
    (tasks : List StudyTask) (st : SchedState) (h : structInv K st.schedule) :
    structInv K (scheduleTasks preferences cd ed tasks st).2.schedule := by
  rw [scheduleTasks]
  refine foldl_preserve_mem
    (fun (acc : List StudyTask × SchedState) => structInv K acc.2.schedule) _ _ _ ?_ h
  intro b trip _ hPb
  exact allocateTask_struct K preferences cd trip.1 b.2 hPb

theorem createRevisionTask_req_nonneg (counter : ℕ) (original_task : StudyTask)
    (revision_date iteration : ℤ) :
    0 ≤ (createRevisionTask counter original_task revision_date iteration).1.required_minutes :=
  le_trans (by norm_num) (le_max_left 15 _)

theorem processRevisions_maps_inv (availability : DailyAvailability)
    (preferences : StudyPreferences) (ed : ℤ) (source_task : StudyTask)
    (acc : List StudyTask × ℕ × SchedState)
    (h : mapsInv availability preferences acc.2.2.capMap acc.2.2.schedule) :
    mapsInv availability preferences
      (processRevisions preferences ed source_task acc).2.2.capMap
      (processRevisions preferences ed source_task acc).2.2.schedule := by
  rw [processRevisions]
  cases hsd : source_task.scheduled_date with
  | none => exact h
  | some d0 =>
    refine foldl_preserve_mem
      (fun (a : List StudyTask × ℕ × SchedState) =>
        mapsInv availability preferences a.2.2.capMap a.2.2.schedule) _ _ _ ?_ h
    intro b ip _ hPb
    simp only [revStep]
    cases hl : b.2.2.capMap.lookup ip.2 with
    | none =>
      simp only [hl]
      exact hPb
    | some c =>
      simp only [hl]
      by_cases hcf : c.can_fit_session
          (createRevisionTask b.2.1 source_task ip.2 (ip.1 : ℤ)).1.required_minutes
          (createRevisionTask b.2.1 source_task ip.2 (ip.1 : ℤ)).1.subject
          (createRevisionTask b.2.1 source_task ip.2 (ip.1 : ℤ)).1.topic
          preferences.max_subjects_per_day = true
      · rw [if_pos hcf]
        exact maps_update_inv availability preferences _ ip.2 _ _ c
          (createRevisionTask_req_nonneg _ _ _ _) hl hcf hPb
      · rw [if_neg hcf]
        exact hPb

theorem processRevisions_struct (K : List ℤ) (preferences : StudyPreferences) (ed : ℤ)
    (source_task : StudyTask) (acc : List StudyTask × ℕ × SchedState)
    (h : structInv K acc.2.2.schedule) :
    structInv K (processRevisions preferences ed source_task acc).2.2.schedule := by
  rw [processRevisions]
  cases hsd : source_task.scheduled_date with
  | none => exact h
  | some d0 =>
    refine foldl_preserve_mem
      (fun (a : List StudyTask × ℕ × SchedState) => structInv K a.2.2.schedule) _ _ _ ?_ h
    intro b ip _ hPb
    simp only [revStep]
    cases hl : b.2.2.capMap.lookup ip.2 with
    | none =>
      simp only [hl]
      exact hPb
    | some c =>
      simp only [hl]
      by_cases hcf : c.can_fit_session
          (createRevisionTask b.2.1 source_task ip.2 (ip.1 : ℤ)).1.required_minutes
          (createRevisionTask b.2.1 source_task ip.2 (ip.1 : ℤ)).1.subject
          (createRevisionTask b.2.1 source_task ip.2 (ip.1 : ℤ)).1.topic
          preferences.max_subjects_per_day = true
      · rw [if_pos hcf]
        exact structInv_addTask K preferences _ c ip.2 b.2.2.schedule hPb
      · rw [if_neg hcf]
        exact hPb

theorem addSpacedRepetition_maps_inv (availability : DailyAvailability)
    (preferences : StudyPreferences) (topics : List LearningTopic) (ed : ℤ)
    (tasks : List StudyTask) (counter : ℕ) (st : SchedState)
    (h : mapsInv availability preferences st.capMap st.schedule) :
    mapsInv availability preferences
      (addSpacedRepetition preferences topics ed tasks counter st).2.2.capMap
      (addSpacedRepetition preferences topics ed tasks counter st).2.2.schedule := by
  rw [addSpacedRepetition]
  refine foldl_preserve_mem
    (fun (a : List StudyTask × ℕ × SchedState) =>
      mapsInv availability preferences a.2.2.capMap a.2.2.schedule) _ _ _ ?_ h
  intro b src _ hPb
  exact processRevisions_maps_inv availability preferences ed src b hPb

theorem addSpacedRepetition_struct (K : List ℤ) (preferences : StudyPreferences)
    (topics : List LearningTopic) (ed : ℤ) (tasks : List StudyTask) (counter : ℕ)
    (st : SchedState) (h : structInv K st.schedule) :
    structInv K (addSpacedRepetition preferences topics ed tasks counter st).2.2.schedule := by
  rw [addSpacedRepetition]
  refine foldl_preserve_mem
    (fun (a : List StudyTask × ℕ × SchedState) => structInv K a.2.2.schedule) _ _ _ ?_ h
  intro b src _ hPb
  exact processRevisions_struct K preferences ed src b hPb

theorem decomposeEvent_req_nonneg (L : ℤ) (counter : ℕ) (event : FixedEvent)
    (hL : 15 ≤ L) (he : 0 ≤ event.estimated_effort_hours) :
    ∀ t ∈ (decomposeEvent L counter event).1, 0 ≤ t.required_minutes := by
  intro t ht
  simp only [decomposeEvent, List.mem_map, List.mem_range] at ht
  obtain ⟨i, _, rfl⟩ := ht
  have htot := hoursToMinutes_nonneg he
  have hn : (0 : ℤ) < max 1 ((hoursToMinutes event.estimated_effort_hours + L - 1).fdiv L) :=
    lt_of_lt_of_le one_pos (le_max_left _ _)
  show 0 ≤ min _ L
  apply le_min
  · have hq : 0 ≤ (hoursToMinutes event.estimated_effort_hours).fdiv
        (max 1 ((hoursToMinutes event.estimated_effort_hours + L - 1).fdiv L)) := by
      rw [Int.fdiv_eq_ediv _ (by omega)]
      exact Int.ediv_nonneg htot (by omega)
    split_ifs <;> omega
  · omega

theorem decomposeTopic_req_nonneg (L : ℤ) (counter : ℕ) (topic : LearningTopic)
    (deadline : ℤ) (hL : 15 ≤ L) :
    ∀ t ∈ (decomposeTopic L counter topic deadline).1, 0 ≤ t.required_minutes := by
  intro t ht
  simp only [decomposeTopic, List.mem_map, List.mem_range] at ht
  obtain ⟨i, _, rfl⟩ := ht
  show 0 ≤ min (max _ 15) L
  apply le_min
  · exact le_trans (by norm_num) (le_max_right _ 15)
  · omega

theorem decomposeAll_req_nonneg (preferences : StudyPreferences) (events : List FixedEvent)
    (topics : List LearningTopic) (ed : ℤ)
    (hL : 15 ≤ preferences.session_length_minutes)
    (he : ∀ e ∈ events, 0 ≤ e.estimated_effort_hours) :
    ∀ t ∈ (decomposeAll preferences events topics ed).1, 0 ≤ t.required_minutes := by
  rw [decomposeAll]
  refine foldl_preserve_mem
    (fun (acc : List StudyTask × ℕ) => ∀ t ∈ acc.1, 0 ≤ t.required_minutes) _ _ _ ?_ ?_
  · intro b tp _ hPb t ht
    rcases List.mem_append.mp ht with hin | hin
    · exact hPb t hin
    · exact decomposeTopic_req_nonneg _ _ _ _ hL t hin
  · refine foldl_preserve_mem
      (fun (acc : List StudyTask × ℕ) => ∀ t ∈ acc.1, 0 ≤ t.required_minutes) _ _ _ ?_ ?_
    · intro b e he2 hPb t ht
      rcases List.mem_append.mp ht with hin | hin
      · exact hPb t hin
      · exact decomposeEvent_req_nonneg _ _ _ hL (he e he2) t hin
    · intro t ht
      exact absurd ht (List.not_mem_nil _)

theorem get_hours_for_date_nonneg (availability : DailyAvailability) (d : ℤ)
    (h1 : 0 ≤ availability.weekday_hours) (h2 : 0 ≤ availability.weekend_hours) :
    0 ≤ availability.get_hours_for_date d := by
  rw [DailyAvailability.get_hours_for_date]
  split_ifs
  · norm_num
  · exact h1
  · exact h2

theorem buffer_bounds (raw : ℤ) (p : ℚ) (h0 : 0 ≤ raw) (hp0 : 0 ≤ p) (hp1 : p ≤ 1) :
    0 ≤ ratTrunc ((raw : ℚ) * p) ∧ ratTrunc ((raw : ℚ) * p) ≤ raw := by
  have h0q : (0 : ℚ) ≤ (raw : ℚ) := by exact_mod_cast h0
  have hq : (0 : ℚ) ≤ (raw : ℚ) * p := mul_nonneg h0q hp0
  rw [ratTrunc, if_pos hq]
  constructor
  · exact Int.floor_nonneg.mpr hq
  · calc ⌊(raw : ℚ) * p⌋ ≤ ⌊((raw : ℤ) : ℚ)⌋ := Int.floor_le_floor (by nlinarith)
      _ = raw := Int.floor_intCast raw

theorem buildCapacityMap_lookup (availability : DailyAvailability)
    (preferences : StudyPreferences) (cd ed d : ℤ) (hd : d ∈ dateRange cd ed) :
    (buildCapacityMap availability preferences cd ed).lookup d =
      some { date := d,
             total_minutes := hoursToMinutes (availability.get_hours_for_date d),
             available_minutes := hoursToMinutes (availability.get_hours_for_date d) -
               ratTrunc ((hoursToMinutes (availability.get_hours_for_date d) : ℚ) *
                 preferences.buffer_percentage),
             max_sessions := preferences.max_sessions_per_day,
             next_available_time := availability.start_time } := by
  rw [buildCapacityMap]
  exact lookup_map_key _ _ _ hd

theorem initial_maps_inv (availability : DailyAvailability) (preferences : StudyPreferences)
    (cd ed : ℤ)
    (hwd : 0 ≤ availability.weekday_hours) (hwe : 0 ≤ availability.weekend_hours)
    (hp0 : 0 ≤ preferences.buffer_percentage) (hp1 : preferences.buffer_percentage ≤ 1)
    (hms : 0 ≤ preferences.max_subjects_per_day)
    (hst0 : 0 ≤ availability.start_time) (hst1 : availability.start_time ≤ 23 * 60 + 59) :
    mapsInv availability preferences (buildCapacityMap availability preferences cd ed)
      ((dateRange cd ed).map (fun d => (d, ({ date := d } : DaySchedule)))) := by
  refine ⟨?_, ?_, ?_⟩
  · rw [List.map_map]
    rw [show (Prod.fst ∘ fun d => ((d : ℤ), ({ date := d } : DaySchedule))) = id from rfl]
    rw [List.map_id]
    exact dateRange_nodup cd ed
  · intro d s hs
    by_cases hd : d ∈ dateRange cd ed
    · exact ⟨_, buildCapacityMap_lookup availability preferences cd ed d hd⟩
    · rw [lookup_map_key_none _ _ _ hd] at hs
      cases hs
  · intro d c hc
    by_cases hd : d ∈ dateRange cd ed
    · rw [buildCapacityMap_lookup availability preferences cd ed d hd] at hc
      obtain rfl : _ = c := Option.some.inj hc
      refine ⟨{ date := d }, lookup_map_key _ _ _ hd, ?_⟩
      have hraw : 0 ≤ hoursToMinutes (availability.get_hours_for_date d) :=
        hoursToMinutes_nonneg (get_hours_for_date_nonneg availability d hwd hwe)
      obtain ⟨hb0, hb1⟩ := buffer_bounds _ _ hraw hp0 hp1
      refine ⟨?_, ?_, rfl, rfl, ?_, ?_, ?_, hst0, hst1⟩
      · show 0 ≤ hoursToMinutes (availability.get_hours_for_date d) -
          ratTrunc ((hoursToMinutes (availability.get_hours_for_date d) : ℚ) *
            preferences.buffer_percentage)
        omega
      · show (0 : ℤ) + _ ≤ hoursToMinutes (availability.get_hours_for_date d)
        show (0 : ℤ) + (hoursToMinutes (availability.get_hours_for_date d) -
          ratTrunc ((hoursToMinutes (availability.get_hours_for_date d) : ℚ) *
            preferences.buffer_percentage)) ≤ _
        omega
      · show (((∅ : Finset String)).card : ℤ) ≤ preferences.max_subjects_per_day
        simpa using hms
      · show (∅ : Finset String) = (([] : List TimeSlot).map (fun sl => sl.subject)).toFinset
        simp
      · intro sl hsl
        exact absurd hsl (List.not_mem_nil _)
    · rw [buildCapacityMap, lookup_map_key_none _ _ _ hd] at hc
      cases hc

theorem initial_struct (cd ed : ℤ) :
    structInv (dateRange cd ed)
      ((dateRange cd ed).map (fun d => (d, ({ date := d } : DaySchedule)))) := by
  constructor
  · rw [List.map_map]
    rw [show (Prod.fst ∘ fun d => ((d : ℤ), ({ date := d } : DaySchedule))) = id from rfl]
    exact List.map_id _
  · intro p hp sl hsl
    obtain ⟨d, _, rfl⟩ := List.mem_map.mp hp
    exact absurd hsl (List.not_mem_nil _)

/-- The schedule map that `generate` returns always satisfies the structural
invariant: horizon keys, no break slots. -/
theorem generate_struct (events : List FixedEvent) (availability : DailyAvailability)
    (preferences : StudyPreferences) (topics : List LearningTopic) (current_date : ℤ) :
    structInv (dateRange current_date (determineHorizon events current_date))
      (generate events availability preferences topics current_date).schedule := by
  rw [generate]
  exact addSpacedRepetition_struct _ _ _ _ _ _ _
    (scheduleTasks_struct _ _ _ _ _ _ (initial_struct _ _))

/-- The schedule map that `generate` returns satisfies the allocation
invariant against some final capacity map. -/
theorem generate_maps (events : List FixedEvent) (availability : DailyAvailability)
    (preferences : StudyPreferences) (topics : List LearningTopic) (current_date : ℤ)
    (hv : validInputs events availability preferences) :
    ∃ capMap, mapsInv availability preferences capMap
      (generate events availability preferences topics current_date).schedule := by
  obtain ⟨h1, h2, h3, h4, h5, h6, h7, h8, h9, h10⟩ := hv
  rw [generate]
  exact ⟨_, addSpacedRepetition_maps_inv _ _ _ _ _ _ _
    (scheduleTasks_maps_inv _ _ _ _ _ _ (decomposeAll_req_nonneg _ _ _ _ h1 h10)
      (initial_maps_inv _ _ _ _ h6 h7 h3 h4 h5 h8 h9))⟩

/-- Claim C6: in every generated schedule, each day's recorded study minutes
stay within that day's raw capacity (available hours times sixty) and the
distinct subjects among its slots stay within `max_subjects_per_day` —
every allocation is guarded by `can_fit_session`. -/
theorem generate_capacity_spec (events : List FixedEvent) (availability : DailyAvailability)
    (preferences : StudyPreferences) (topics : List LearningTopic) (current_date : ℤ)
    (hv : validInputs events availability preferences) :
    List.Forall (fun p =>
      p.2.total_study_minutes ≤ hoursToMinutes (availability.get_hours_for_date p.1) ∧
      ((p.2.slots.map (fun sl => sl.subject)).toFinset.card : ℤ) ≤
        preferences.max_subjects_per_day)
      (generate events availability preferences topics current_date).schedule := by
  obtain ⟨capMap, hnd, hB, hC⟩ :=
    generate_maps events availability preferences topics current_date hv
  rw [List.forall_iff_forall_mem]
  intro p hp
  obtain ⟨d, s⟩ := p
  have hlk : (generate events availability preferences topics current_date).schedule.lookup d =
      some s := lookup_of_mem_nodup _ hnd d s hp
  obtain ⟨c, hc⟩ := hB d s hlk
  obtain ⟨s', hs', hday⟩ := hC d c hc
  obtain rfl : s = s' := by
    rw [hlk] at hs'
    exact Option.some.inj hs'
  obtain ⟨hi1, hi2, hi3, hi4, hi5, hi6, hi7, hi8, hi9⟩ := hday
  constructor
  · show s.total_study_minutes ≤ hoursToMinutes (availability.get_hours_for_date d)
    rw [← hi3]
    omega
  · show ((s.slots.map (fun sl => sl.subject)).toFinset.card : ℤ) ≤ _
    rw [← hi6, hi4]
    exact hi5

/-- Witness for C6 at the default empty inputs. -/
theorem generate_capacity_spec_witness :
    validInputs [] {} {} ∧
    List.Forall (fun p =>
      p.2.total_study_minutes ≤
        hoursToMinutes (({} : DailyAvailability).get_hours_for_date p.1) ∧
      ((p.2.slots.map (fun sl => sl.subject)).toFinset.card : ℤ) ≤
        ({} : StudyPreferences).max_subjects_per_day)
      (generate [] {} {} [] 0).schedule := by
  have hv : validInputs [] {} {} := by
    refine ⟨by norm_num, by norm_num, by norm_num, by norm_num, by norm_num,
      by norm_num, by norm_num, by norm_num, by norm_num, ?_⟩
    intro e he
    exact absurd he (List.not_mem_nil _)
  exact ⟨hv, generate_capacity_spec [] {} {} [] 0 hv⟩

/-- Claim C10: `generate` never materializes break slots — every time slot
in every day of the output has `is_break = false`; breaks only advance the
day's next available time. -/
theorem generate_no_break_slots (events : List FixedEvent) (availability : DailyAvailability)
    (preferences : StudyPreferences) (topics : List LearningTopic) (current_date : ℤ) :
    List.Forall (fun p => List.Forall (fun sl => sl.is_break = false) p.2.slots)
      (generate events availability preferences topics current_date).schedule := by
  have h := (generate_struct events availability preferences topics current_date).2
  rw [List.forall_iff_forall_mem]
  intro p hp
  rw [List.forall_iff_forall_mem]
  intro sl hsl
  exact h p hp sl hsl

/-- Claim C3: when no date from the current date to the deadline fits a task,
a task of priority at most 5 is booked on the first of the three days past
the deadline that is a key of the capacity map and fits, appending exactly
one "warning"-severity CapacityWarning naming the task; with priority above
5 no past-deadline attempt is made and the state is returned untouched; when
the fallback also fails everything is returned untouched (the task keeps its
pending status, no exception); and `generate` always returns a complete
output whose schedule covers exactly the horizon dates. -/
theorem allocate_task_overflow_spec (preferences : StudyPreferences) (current_date : ℤ)
    (task : StudyTask) (st : SchedState)
    (hnofit : (dateRange current_date task.deadline).find?
      (fun d => fitsAt st.capMap preferences d task) = none) :
    (∀ f, (([1, 2, 3] : List ℤ).map (fun o => addDays task.deadline o)).find?
        (fun d => fitsAt st.capMap preferences d task) = some f →
      task.priority ≤ 5 →
      (allocateTask preferences current_date task st).1.status = TaskStatus.scheduled ∧
      (allocateTask preferences current_date task st).1.scheduled_date = some f ∧
      (allocateTask preferences current_date task st).2.2 = true ∧
      (allocateTask preferences current_date task st).2.1.warnings =
        st.warnings ++ [{ date := f,
                          message := "Task " ++ task.topic ++ " pushed past deadline",
                          affected_tasks := [task.task_id],
                          severity := "warning" }]) ∧
    (5 < task.priority →
      allocateTask preferences current_date task st = (task, st, false)) ∧
    ((([1, 2, 3] : List ℤ).map (fun o => addDays task.deadline o)).find?
        (fun d => fitsAt st.capMap preferences d task) = none →
      allocateTask preferences current_date task st = (task, st, false)) ∧
    (∀ (events : List FixedEvent) (availability : DailyAvailability)
        (topics : List LearningTopic),
      (generate events availability preferences topics current_date).schedule.map Prod.fst =
        dateRange current_date (determineHorizon events current_date)) := by
  refine ⟨?_, ?_, ?_, ?_⟩
  · intro f hf hp
    have hfit : fitsAt st.capMap preferences f task = true := by
      have h0 := List.find?_some hf
      exact h0
    obtain ⟨c, hl, _⟩ := fitsAt_spec _ _ _ _ hfit
    have heq : allocateTask preferences current_date task st =
        ((addTaskToSchedule preferences task c f st.schedule).1,
         { capMap := updateAssoc st.capMap f
             (addTaskToSchedule preferences task c f st.schedule).2.1,
           schedule := (addTaskToSchedule preferences task c f st.schedule).2.2,
           warnings := st.warnings ++
             [{ date := f,
                message := "Task " ++ task.topic ++ " pushed past deadline",
                affected_tasks := [task.task_id],
                severity := "warning" }] },
         true) := by
      simp only [allocateTask, hnofit, if_pos hp, hf, allocAtDate, hl]
    rw [heq]
    exact ⟨rfl, rfl, rfl, rfl⟩
  · intro hp
    rw [allocateTask, hnofit, if_neg (not_le.mpr hp)]
  · intro hf2
    by_cases hp : task.priority ≤ 5
    · rw [allocateTask, hnofit, if_pos hp, hf2]
    · rw [allocateTask, hnofit, if_neg hp]
  · intro events availability topics
    exact (generate_struct events availability preferences topics current_date).1

/-- Witness for C3: with days 0 and 1 full and day 2 open, the priority-4
task with deadline 1 is booked on day 2 with exactly one warning. -/
theorem allocate_task_overflow_spec_witness :
    ((dateRange 0 witnessTask.deadline).find?
      (fun d => fitsAt witnessState.capMap {} d witnessTask) = none) ∧
    ((([1, 2, 3] : List ℤ).map (fun o => addDays witnessTask.deadline o)).find?
      (fun d => fitsAt witnessState.capMap {} d witnessTask) = some 2) ∧
    witnessTask.priority ≤ 5 ∧
    ((allocateTask {} 0 witnessTask witnessState).1.status = TaskStatus.scheduled ∧
     (allocateTask {} 0 witnessTask witnessState).1.scheduled_date = some 2 ∧
     (allocateTask {} 0 witnessTask witnessState).2.2 = true ∧
     (allocateTask {} 0 witnessTask witnessState).2.1.warnings =
       witnessState.warnings ++ [{ date := 2,
                                   message := "Task " ++ witnessTask.topic ++
                                     " pushed past deadline",
                                   affected_tasks := [witnessTask.task_id],
                                   severity := "warning" }]) := by
  have h1 : (dateRange 0 witnessTask.deadline).find?
      (fun d => fitsAt witnessState.capMap {} d witnessTask) = none := by decide
  have h2 : (([1, 2, 3] : List ℤ).map (fun o => addDays witnessTask.deadline o)).find?
      (fun d => fitsAt witnessState.capMap {} d witnessTask) = some 2 := by decide
  exact ⟨h1, h2, by decide,
    (allocate_task_overflow_spec {} 0 witnessTask witnessState h1).1 2 h2 (by decide)⟩

/-! ### Spaced repetition: grouping and revision-loop lemmas (C7) -/

theorem glookup_cons_ne (a : String) (b : StudyTask) (es : List (String × StudyTask))
    (d : String) (h : d ≠ a) : ((a, b) :: es).lookup d = es.lookup d := by
  rw [List.lookup_cons, show (d == a) = false from beq_eq_false_iff_ne.mpr h]

theorem glookup_mem (l : List (String × StudyTask)) (k : String) (v : StudyTask)
    (h : l.lookup k = some v) : (k, v) ∈ l := by
  obtain ⟨l1, l2, rfl, _⟩ := List.lookup_eq_some_iff.mp h
  exact List.mem_append.mpr (Or.inr (List.mem_cons_self _ _))

theorem glookup_append_left (l l2 : List (String × StudyTask)) (k : String) (v : StudyTask)
    (h : l.lookup k = some v) : (l ++ l2).lookup k = some v := by
  rw [List.lookup_append, h]
  rfl

theorem glookup_append_right (l l2 : List (String × StudyTask)) (k : String)
    (h : l.lookup k = none) : (l ++ l2).lookup k = l2.lookup k := by
  rw [List.lookup_append, h]
  rfl

theorem glookup_none_not_mem (l : List (String × StudyTask)) (k : String)
    (h : l.lookup k = none) : k ∉ l.map Prod.fst := by
  intro hmem
  obtain ⟨p, hp, hpk⟩ := List.mem_map.mp hmem
  have h2 := List.lookup_eq_none_iff.mp h p hp
  rw [hpk] at h2
  simp at h2

theorem gkeys_replace (m : List (String × StudyTask)) (tid : String) (t : StudyTask) :
    (m.map (fun p => if p.1 = tid then (tid, t) else p)).map Prod.fst = m.map Prod.fst := by
  rw [List.map_map]
  apply List.map_congr_left
  intro p _
  by_cases h : p.1 = tid
  · simp [h]
  · simp [h]

theorem glookup_replace_eq (m : List (String × StudyTask)) (tid : String)
    (t existing : StudyTask) (h : m.lookup tid = some existing) :
    (m.map (fun p => if p.1 = tid then (tid, t) else p)).lookup tid = some t := by
  induction m with
  | nil => simp at h
  | cons p l ih =>
    obtain ⟨a, b⟩ := p
    simp only [List.map_cons]
    by_cases ha : a = tid
    · rw [if_pos (show ((a, b) : String × StudyTask).1 = tid from ha)]
      exact List.lookup_cons_self
    · rw [if_neg (show ¬ ((a, b) : String × StudyTask).1 = tid from ha)]
      rw [glookup_cons_ne _ _ _ _ (fun he => ha he.symm)]
      apply ih
      rwa [glookup_cons_ne _ _ _ _ (fun he => ha he.symm)] at h

theorem glookup_replace_ne (m : List (String × StudyTask)) (tid : String) (t : StudyTask)
    (d : String) (hd : d ≠ tid) :
    (m.map (fun p => if p.1 = tid then (tid, t) else p)).lookup d = m.lookup d := by
  induction m with
  | nil => rfl
  | cons p l ih =>
    obtain ⟨a, b⟩ := p
    simp only [List.map_cons]
    by_cases ha : a = tid
    · rw [if_pos (show ((a, b) : String × StudyTask).1 = tid from ha)]
      rw [glookup_cons_ne _ _ _ _ hd, glookup_cons_ne _ _ _ _ (fun he => hd (he.trans ha))]
      exact ih
    · rw [if_neg (show ¬ ((a, b) : String × StudyTask).1 = tid from ha)]
      by_cases hda : d = a
      · subst hda
        simp
      · rw [glookup_cons_ne _ _ _ _ hda, glookup_cons_ne _ _ _ _ hda]
        exact ih

theorem dateLE_refl (t : StudyTask) : dateLE t t := by
  intro a b ha hb
  rw [ha] at hb
  exact le_of_eq (Option.some.inj hb)

theorem dateLE_trans (w v u : StudyTask) (h1 : dateLE w v) (h2 : dateLE v u)
    (hm : v.scheduled_date ≠ none) : dateLE w u := by
  intro a c ha hc
  rcases hv : v.scheduled_date with _ | b
  · exact absurd hv hm
  · exact le_trans (h1 a b ha hv) (h2 b c hv hc)

theorem groupStep_none (m : List (String × StudyTask)) (t : StudyTask)
    (h : t.source_topic_id = none) : groupStep m t = m := by
  simp only [groupStep, h]

theorem groupStep_skip (m : List (String × StudyTask)) (t : StudyTask)
    (h : t.source_topic_id = some "") : groupStep m t = m := by
  simp only [groupStep, h, eq_self_iff_true, if_true]

theorem groupStep_new (m : List (String × StudyTask)) (t : StudyTask) (tid : String)
    (h : t.source_topic_id = some tid) (hne : tid ≠ "") (h2 : m.lookup tid = none) :
    groupStep m t = m ++ [(tid, t)] := by
  simp only [groupStep, h, if_neg hne, h2]

theorem groupStep_stale (m : List (String × StudyTask)) (t : StudyTask) (tid : String)
    (existing : StudyTask) (h : t.source_topic_id = some tid) (hne : tid ≠ "")
    (h2 : m.lookup tid = some existing) (h3 : t.scheduled_date = none) :
    groupStep m t = m := by
  rcases h4 : existing.scheduled_date with _ | b
  · simp only [groupStep, h, if_neg hne, h2, h3, h4]
  · simp only [groupStep, h, if_neg hne, h2, h3, h4]

theorem groupStep_stale2 (m : List (String × StudyTask)) (t : StudyTask) (tid : String)
    (existing : StudyTask) (a : ℤ) (h : t.source_topic_id = some tid) (hne : tid ≠ "")
    (h2 : m.lookup tid = some existing) (h3 : t.scheduled_date = some a)
    (h4 : existing.scheduled_date = none) : groupStep m t = m := by
  simp only [groupStep, h, if_neg hne, h2, h3, h4]

theorem groupStep_replace (m : List (String × StudyTask)) (t : StudyTask) (tid : String)
    (existing : StudyTask) (a b : ℤ) (h : t.source_topic_id = some tid) (hne : tid ≠ "")
    (h2 : m.lookup tid = some existing) (h3 : t.scheduled_date = some a)
    (h4 : existing.scheduled_date = some b) (h5 : a < b) :
    groupStep m t = m.map (fun p => if p.1 = tid then (tid, t) else p) := by
  simp only [groupStep, h, if_neg hne, h2, h3, h4, if_pos h5]

theorem groupStep_keep (m : List (String × StudyTask)) (t : StudyTask) (tid : String)
    (existing : StudyTask) (a b : ℤ) (h : t.source_topic_id = some tid) (hne : tid ≠ "")
    (h2 : m.lookup tid = some existing) (h3 : t.scheduled_date = some a)
    (h4 : existing.scheduled_date = some b) (h5 : ¬ a < b) : groupStep m t = m := by
  simp only [groupStep, h, if_neg hne, h2, h3, h4, if_neg h5]

theorem groupStep_mem (m : List (String × StudyTask)) (t : StudyTask)
    (p : String × StudyTask) (hp : p ∈ groupStep m t) : p ∈ m ∨ p.2 = t := by
  rcases hsid : t.source_topic_id with _ | tid
  · rw [groupStep_none m t hsid] at hp
    exact Or.inl hp
  · by_cases hne : tid = ""
    · subst hne
      rw [groupStep_skip m t hsid] at hp
      exact Or.inl hp
    · rcases hlk : m.lookup tid with _ | existing
      · rw [groupStep_new m t tid hsid hne hlk] at hp
        rcases List.mem_append.mp hp with h | h
        · exact Or.inl h
        · rw [List.mem_singleton] at h
          exact Or.inr (congrArg Prod.snd h)
      · rcases hta : t.scheduled_date with _ | a
        · rw [groupStep_stale m t tid existing hsid hne hlk hta] at hp
          exact Or.inl hp
        · rcases hexa : existing.scheduled_date with _ | b
          · rw [groupStep_stale2 m t tid existing a hsid hne hlk hta hexa] at hp
            exact Or.inl hp
          · by_cases hab : a < b
            · rw [groupStep_replace m t tid existing a b hsid hne hlk hta hexa hab] at hp
              obtain ⟨q, hq, hpq⟩ := List.mem_map.mp hp
              have hpq2 : (if q.1 = tid then (tid, t) else q) = p := hpq
              by_cases hq1 : q.1 = tid
              · rw [if_pos hq1] at hpq2
                rw [← hpq2]
                exact Or.inr rfl
              · rw [if_neg hq1] at hpq2
                rw [← hpq2]
                exact Or.inl hq
            · rw [groupStep_keep m t tid existing a b hsid hne hlk hta hexa hab] at hp
              exact Or.inl hp

theorem groupEarliest_aux_mem (l : List StudyTask) :
    ∀ m : List (String × StudyTask), ∀ p ∈ l.foldl groupStep m, p ∈ m ∨ p.2 ∈ l := by
  induction l with
  | nil =>
    intro m p hp
    exact Or.inl hp
  | cons t rest ih =>
    intro m p hp
    simp only [List.foldl_cons] at hp
    rcases ih (groupStep m t) p hp with h | h
    · rcases groupStep_mem m t p h with h2 | h2
      · exact Or.inl h2
      · refine Or.inr ?_
        rw [h2]
        exact List.mem_cons_self t rest
    · exact Or.inr (List.mem_cons_of_mem t h)

theorem groupEarliest_snd_mem (l : List StudyTask) (p : String × StudyTask)
    (hp : p ∈ groupEarliest l) : p.2 ∈ l := by
  rw [groupEarliest] at hp
  rcases groupEarliest_aux_mem l [] p hp with h | h
  · exact absurd h (List.not_mem_nil p)
  · exact h

theorem group_go (l : List StudyTask) :
    ∀ m : List (String × StudyTask),
    (∀ u ∈ l, u.scheduled_date ≠ none) →
    ((m.map Prod.fst).Nodup) →
    (∀ p ∈ m, p.2.source_topic_id = some p.1) →
    (∀ p ∈ m, p.2.scheduled_date ≠ none) →
    ((l.foldl groupStep m).map Prod.fst).Nodup ∧
    (∀ p ∈ l.foldl groupStep m,
      (p ∈ m ∨ p.2 ∈ l) ∧ p.2.source_topic_id = some p.1 ∧ p.2.scheduled_date ≠ none) ∧
    (∀ (k : String) (v : StudyTask), m.lookup k = some v →
      ∃ w, (l.foldl groupStep m).lookup k = some w ∧ dateLE w v) ∧
    (∀ u ∈ l, ∀ tid, u.source_topic_id = some tid → tid ≠ "" →
      ∃ w, (l.foldl groupStep m).lookup tid = some w ∧ dateLE w u) := by
  induction l with
  | nil =>
    intro m _ hker htid hdate
    refine ⟨hker, ?_, ?_, ?_⟩
    · intro p hp
      exact ⟨Or.inl hp, htid p hp, hdate p hp⟩
    · intro k v hkv
      exact ⟨v, hkv, dateLE_refl v⟩
    · intro u hu
      exact absurd hu (List.not_mem_nil u)
  | cons t rest ih =>
    intro m hl hker htid hdate
    have htd : t.scheduled_date ≠ none := hl t (List.mem_cons_self t rest)
    have hS : ((groupStep m t).map Prod.fst).Nodup ∧
        (∀ p ∈ groupStep m t,
          (p ∈ m ∨ p.2 = t) ∧ p.2.source_topic_id = some p.1 ∧ p.2.scheduled_date ≠ none) ∧
        (∀ (k : String) (v : StudyTask), m.lookup k = some v →
          ∃ v2, (groupStep m t).lookup k = some v2 ∧ dateLE v2 v ∧
            v2.scheduled_date ≠ none) ∧
        (∀ tid, t.source_topic_id = some tid → tid ≠ "" →
          ∃ v2, (groupStep m t).lookup tid = some v2 ∧ dateLE v2 t ∧
            v2.scheduled_date ≠ none) := by
      rcases hsid : t.source_topic_id with _ | tid
      · rw [groupStep_none m t hsid]
        refine ⟨hker, ?_, ?_, ?_⟩
        · intro p hp
          exact ⟨Or.inl hp, htid p hp, hdate p hp⟩
        · intro k v hkv
          exact ⟨v, hkv, dateLE_refl v, hdate (k, v) (glookup_mem m k v hkv)⟩
        · intro tid h
          exact absurd h (by simp)
      · by_cases hne : tid = ""
        · subst hne
          rw [groupStep_skip m t hsid]
          refine ⟨hker, ?_, ?_, ?_⟩
          · intro p hp
            exact ⟨Or.inl hp, htid p hp, hdate p hp⟩
          · intro k v hkv
            exact ⟨v, hkv, dateLE_refl v, hdate (k, v) (glookup_mem m k v hkv)⟩
          · intro tid0 h0 hne0
            exact absurd (Option.some.inj h0).symm hne0
        · rcases hlk : m.lookup tid with _ | existing
          · rw [groupStep_new m t tid hsid hne hlk]
            have hnotin : tid ∉ m.map Prod.fst := glookup_none_not_mem m tid hlk
            refine ⟨?_, ?_, ?_, ?_⟩
            · simp only [List.map_append, List.map_cons, List.map_nil]
              refine List.Nodup.append hker (List.nodup_singleton tid) ?_
              intro x hx hx2
              rw [List.mem_singleton] at hx2
              subst hx2
              exact hnotin hx
            · intro p hp
              rcases List.mem_append.mp hp with h | h
              · exact ⟨Or.inl h, htid p h, hdate p h⟩
              · rw [List.mem_singleton] at h
                subst h
                exact ⟨Or.inr rfl, hsid, htd⟩
            · intro k v hkv
              exact ⟨v, glookup_append_left m [(tid, t)] k v hkv, dateLE_refl v,
                hdate (k, v) (glookup_mem m k v hkv)⟩
            · intro tid0 h0 hne0
              have he : tid0 = tid := (Option.some.inj h0).symm
              rw [he]
              refine ⟨t, ?_, dateLE_refl t, htd⟩
              rw [glookup_append_right m [(tid, t)] tid hlk]
              exact List.lookup_cons_self
          · have hexd : existing.scheduled_date ≠ none :=
              hdate (tid, existing) (glookup_mem m tid existing hlk)
            rcases hta : t.scheduled_date with _ | a
            · exact absurd hta htd
            rcases hexa : existing.scheduled_date with _ | b
            · exact absurd hexa hexd
            by_cases hab : a < b
            · rw [groupStep_replace m t tid existing a b hsid hne hlk hta hexa hab]
              refine ⟨?_, ?_, ?_, ?_⟩
              · rw [gkeys_replace]
                exact hker
              · intro p hp
                obtain ⟨q, hq, hpq⟩ := List.mem_map.mp hp
                have hpq2 : (if q.1 = tid then (tid, t) else q) = p := hpq
                by_cases hq1 : q.1 = tid
                · rw [if_pos hq1] at hpq2
                  rw [← hpq2]
                  exact ⟨Or.inr rfl, hsid, htd⟩
                · rw [if_neg hq1] at hpq2
                  rw [← hpq2]
                  exact ⟨Or.inl hq, htid q hq, hdate q hq⟩
              · intro k v hkv
                by_cases hk : k = tid
                · subst hk
                  have hv : v = existing := by
                    rw [hkv] at hlk
                    exact Option.some.inj hlk
                  refine ⟨t, glookup_replace_eq m k t existing hlk, ?_, ?_⟩
                  · intro x y hx hy
                    rw [hta] at hx
                    have hxa := Option.some.inj hx
                    rw [hv, hexa] at hy
                    have hyb := Option.some.inj hy
                    omega
                  · rw [hta]
                    simp
                · refine ⟨v, ?_, dateLE_refl v, hdate (k, v) (glookup_mem m k v hkv)⟩
                  rw [glookup_replace_ne m tid t k hk]
                  exact hkv
              · intro tid0 h0 hne0
                have he : tid0 = tid := (Option.some.inj h0).symm
                rw [he]
                refine ⟨t, glookup_replace_eq m tid t existing hlk, dateLE_refl t, htd⟩
            · rw [groupStep_keep m t tid existing a b hsid hne hlk hta hexa hab]
              refine ⟨hker, ?_, ?_, ?_⟩
              · intro p hp
                exact ⟨Or.inl hp, htid p hp, hdate p hp⟩
              · intro k v hkv
                exact ⟨v, hkv, dateLE_refl v, hdate (k, v) (glookup_mem m k v hkv)⟩
              · intro tid0 h0 hne0
                have he : tid0 = tid := (Option.some.inj h0).symm
                rw [he]
                refine ⟨existing, hlk, ?_, hexd⟩
                intro x y hx hy
                rw [hexa] at hx
                rw [hta] at hy
                have h1 := Option.some.inj hx
                have h2 := Option.some.inj hy
                omega
    obtain ⟨S1, S2, S3, S4⟩ := hS
    obtain ⟨G1, G2, G3, G4⟩ := ih (groupStep m t)
      (fun u hu => hl u (List.mem_cons_of_mem t hu)) S1
      (fun p hp => (S2 p hp).2.1) (fun p hp => (S2 p hp).2.2)
    simp only [List.foldl_cons]
    refine ⟨G1, ?_, ?_, ?_⟩
    · intro p hp
      obtain ⟨horig, hsid2, hdate2⟩ := G2 p hp
      refine ⟨?_, hsid2, hdate2⟩
      rcases horig with h | h
      · rcases (S2 p h).1 with h2 | h2
        · exact Or.inl h2
        · refine Or.inr ?_
          rw [h2]
          exact List.mem_cons_self t rest
      · exact Or.inr (List.mem_cons_of_mem t h)
    · intro k v hkv
      obtain ⟨v2, hv2, hle, hv2d⟩ := S3 k v hkv
      obtain ⟨w, hw, hwle⟩ := G3 k v2 hv2
      exact ⟨w, hw, dateLE_trans w v2 v hwle hle hv2d⟩
    · intro u hu tid hsid hne
      rcases List.mem_cons.mp hu with h | h
      · subst h
        obtain ⟨v2, hv2, hle, hv2d⟩ := S4 tid hsid hne
        obtain ⟨w, hw, hwle⟩ := G3 tid v2 hv2
        exact ⟨w, hw, dateLE_trans w v2 u hwle hle hv2d⟩
      · exact G4 u h tid hsid hne

theorem groupEarliest_earliest (l : List StudyTask)
    (hl : ∀ u ∈ l, u.scheduled_date ≠ none) :
    ∀ u ∈ l, ∀ tid, u.source_topic_id = some tid → tid ≠ "" →
      ∃ t, (groupEarliest l).lookup tid = some t ∧ t ∈ l ∧
        t.source_topic_id = some tid ∧
        ∀ v ∈ l, v.source_topic_id = some tid → dateLE t v := by
  obtain ⟨G1, G2, G3, G4⟩ := group_go l [] hl (by simp) (by simp) (by simp)
  intro u hu tid hsid hne
  obtain ⟨w, hw, hwle⟩ := G4 u hu tid hsid hne
  have hw2 : (groupEarliest l).lookup tid = some w := by
    rw [groupEarliest]
    exact hw
  have hmem : (tid, w) ∈ groupEarliest l := glookup_mem _ tid w hw2
  rw [groupEarliest] at hmem
  obtain ⟨horig, hsid2, _⟩ := G2 (tid, w) hmem
  refine ⟨w, hw2, ?_, hsid2, ?_⟩
  · rcases horig with h | h
    · exact absurd h (List.not_mem_nil _)
    · exact h
  · intro v hv hvsid
    obtain ⟨w2, hw3, hw3le⟩ := G4 v hv tid hvsid hne
    rw [hw] at hw3
    have heq : w2 = w := (Option.some.inj hw3).symm
    rw [← heq]
    exact hw3le

theorem snd_mem_of_mem_enumFrom {α : Type} (l : List α) :
    ∀ (n : ℕ) (p : ℕ × α), p ∈ l.enumFrom n → p.2 ∈ l := by
  induction l with
  | nil =>
    intro n p hp
    exact absurd hp (List.not_mem_nil p)
  | cons x xs ih =>
    intro n p hp
    rw [List.enumFrom] at hp
    rcases List.mem_cons.mp hp with h | h
    · rw [h]
      exact List.mem_cons_self x xs
    · exact List.mem_cons_of_mem x (ih (n + 1) p h)

theorem snd_mem_of_mem_enum {α : Type} (l : List α) (p : ℕ × α) (hp : p ∈ l.enum) :
    p.2 ∈ l :=
  snd_mem_of_mem_enumFrom l 0 p hp

theorem revStep_none (preferences : StudyPreferences) (src : StudyTask)
    (a : List StudyTask × ℕ × SchedState) (ip : ℕ × ℤ)
    (h : a.2.2.capMap.lookup ip.2 = none) :
    revStep preferences src a ip =
      (a.1, (createRevisionTask a.2.1 src ip.2 (ip.1 : ℤ)).2, a.2.2) := by
  simp only [revStep, h]

theorem revStep_drop (preferences : StudyPreferences) (src : StudyTask)
    (a : List StudyTask × ℕ × SchedState) (ip : ℕ × ℤ) (c : DayCapacity)
    (h : a.2.2.capMap.lookup ip.2 = some c)
    (hcf : ¬ (c.can_fit_session
        (createRevisionTask a.2.1 src ip.2 (ip.1 : ℤ)).1.required_minutes
        (createRevisionTask a.2.1 src ip.2 (ip.1 : ℤ)).1.subject
        (createRevisionTask a.2.1 src ip.2 (ip.1 : ℤ)).1.topic
        preferences.max_subjects_per_day = true)) :
    revStep preferences src a ip =
      (a.1, (createRevisionTask a.2.1 src ip.2 (ip.1 : ℤ)).2, a.2.2) := by
  simp only [revStep, h]
  rw [if_neg hcf]

theorem revStep_add (preferences : StudyPreferences) (src : StudyTask)
    (a : List StudyTask × ℕ × SchedState) (ip : ℕ × ℤ) (c : DayCapacity)
    (h : a.2.2.capMap.lookup ip.2 = some c)
    (hcf : c.can_fit_session
        (createRevisionTask a.2.1 src ip.2 (ip.1 : ℤ)).1.required_minutes
        (createRevisionTask a.2.1 src ip.2 (ip.1 : ℤ)).1.subject
        (createRevisionTask a.2.1 src ip.2 (ip.1 : ℤ)).1.topic
        preferences.max_subjects_per_day = true) :
    revStep preferences src a ip =
      (a.1 ++ [(addTaskToSchedule preferences
          (createRevisionTask a.2.1 src ip.2 (ip.1 : ℤ)).1 c ip.2 a.2.2.schedule).1],
       (createRevisionTask a.2.1 src ip.2 (ip.1 : ℤ)).2,
       { a.2.2 with
         capMap := updateAssoc a.2.2.capMap ip.2 (addTaskToSchedule preferences
           (createRevisionTask a.2.1 src ip.2 (ip.1 : ℤ)).1 c ip.2 a.2.2.schedule).2.1,
         schedule := (addTaskToSchedule preferences
           (createRevisionTask a.2.1 src ip.2 (ip.1 : ℤ)).1 c ip.2 a.2.2.schedule).2.2 }) := by
  simp only [revStep, h]
  rw [if_pos hcf]

theorem revStep_foldl_shape (preferences : StudyPreferences) (src : StudyTask)
    (lp : List (ℕ × ℤ)) : ∀ a : List StudyTask × ℕ × SchedState,
    (lp.foldl (revStep preferences src) a).2.2.warnings = a.2.2.warnings ∧
    ∃ new, (lp.foldl (revStep preferences src) a).1 = a.1 ++ new ∧
      ∀ r ∈ new, ∃ ip ∈ lp,
        r.required_minutes = max 15 (src.required_minutes.fdiv 2) ∧
        r.deadline = ip.2 ∧ r.task_type = TaskType.revision ∧
        r.parent_task_id = some src.task_id := by
  induction lp with
  | nil =>
    intro a
    exact ⟨rfl, [], by simp, fun r hr => absurd hr (List.not_mem_nil r)⟩
  | cons ip rest ih =>
    intro a
    simp only [List.foldl_cons]
    have hstep : (revStep preferences src a ip).2.2.warnings = a.2.2.warnings ∧
        ∃ new0, (revStep preferences src a ip).1 = a.1 ++ new0 ∧
          ∀ r ∈ new0,
            r.required_minutes = max 15 (src.required_minutes.fdiv 2) ∧
            r.deadline = ip.2 ∧ r.task_type = TaskType.revision ∧
            r.parent_task_id = some src.task_id := by
      cases hl : a.2.2.capMap.lookup ip.2 with
      | none =>
        rw [revStep_none preferences src a ip hl]
        exact ⟨rfl, [], by simp, fun r hr => absurd hr (List.not_mem_nil r)⟩
      | some c =>
        by_cases hcf : c.can_fit_session
            (createRevisionTask a.2.1 src ip.2 (ip.1 : ℤ)).1.required_minutes
            (createRevisionTask a.2.1 src ip.2 (ip.1 : ℤ)).1.subject
            (createRevisionTask a.2.1 src ip.2 (ip.1 : ℤ)).1.topic
            preferences.max_subjects_per_day = true
        · rw [revStep_add preferences src a ip c hl hcf]
          refine ⟨rfl, [(addTaskToSchedule preferences
              (createRevisionTask a.2.1 src ip.2 (ip.1 : ℤ)).1 c ip.2 a.2.2.schedule).1],
            rfl, ?_⟩
          intro r hr
          rw [List.mem_singleton] at hr
          subst hr
          exact ⟨rfl, rfl, rfl, rfl⟩
        · rw [revStep_drop preferences src a ip c hl hcf]
          exact ⟨rfl, [], by simp, fun r hr => absurd hr (List.not_mem_nil r)⟩
    obtain ⟨hw0, new0, h0, hr0⟩ := hstep
    obtain ⟨hw1, new1, h1, hr1⟩ := ih (revStep preferences src a ip)
    refine ⟨hw1.trans hw0, new0 ++ new1, ?_, ?_⟩
    · rw [h1, h0, List.append_assoc]
    · intro r hr
      rcases List.mem_append.mp hr with h | h
      · obtain ⟨hm, hd, ht, hpa⟩ := hr0 r h
        exact ⟨ip, List.mem_cons_self ip rest, hm, hd, ht, hpa⟩
      · obtain ⟨ip2, hip2, hprops⟩ := hr1 r h
        exact ⟨ip2, List.mem_cons_of_mem ip hip2, hprops⟩

theorem processRevisions_shape (preferences : StudyPreferences) (e : ℤ) (src : StudyTask)
    (acc : List StudyTask × ℕ × SchedState) :
    (processRevisions preferences e src acc).2.2.warnings = acc.2.2.warnings ∧
    ∃ new, (processRevisions preferences e src acc).1 = acc.1 ++ new ∧
      ∀ r ∈ new, ∃ D, src.scheduled_date = some D ∧
        r.required_minutes = max 15 (src.required_minutes.fdiv 2) ∧
        r.deadline ∈ spacedRepetitionDates D e [1, 3, 7] ∧
        r.task_type = TaskType.revision ∧
        r.parent_task_id = some src.task_id := by
  cases hd : src.scheduled_date with
  | none =>
    have hp : processRevisions preferences e src acc = acc := by
      simp only [processRevisions, hd]
    rw [hp]
    exact ⟨rfl, [], by simp, fun r hr => absurd hr (List.not_mem_nil r)⟩
  | some D =>
    have hp : processRevisions preferences e src acc =
        ((spacedRepetitionDates D e [1, 3, 7]).enum.map (fun p => (p.1 + 1, p.2))).foldl
          (revStep preferences src) acc := by
      simp only [processRevisions, hd]
    rw [hp]
    obtain ⟨hw, new, h1, h2⟩ := revStep_foldl_shape preferences src
      ((spacedRepetitionDates D e [1, 3, 7]).enum.map (fun p => (p.1 + 1, p.2))) acc
    refine ⟨hw, new, h1, ?_⟩
    intro r hr
    obtain ⟨ip, hip, hm, hdl, ht, hpa⟩ := h2 r hr
    refine ⟨D, rfl, hm, ?_, ht, hpa⟩
    rw [hdl]
    obtain ⟨p, hp2, hpe⟩ := List.mem_map.mp hip
    have hmem : p.2 ∈ spacedRepetitionDates D e [1, 3, 7] :=
      snd_mem_of_mem_enum _ p hp2
    rw [← hpe]
    exact hmem

theorem processRevisions_foldl_shape (preferences : StudyPreferences) (e : ℤ)
    (srcs : List StudyTask) : ∀ a : List StudyTask × ℕ × SchedState,
    ((srcs.foldl (fun acc s => processRevisions preferences e s acc) a).2.2.warnings =
      a.2.2.warnings) ∧
    ∃ new, (srcs.foldl (fun acc s => processRevisions preferences e s acc) a).1 =
        a.1 ++ new ∧
      ∀ r ∈ new, ∃ src ∈ srcs, ∃ D, src.scheduled_date = some D ∧
        r.required_minutes = max 15 (src.required_minutes.fdiv 2) ∧
        r.deadline ∈ spacedRepetitionDates D e [1, 3, 7] ∧
        r.task_type = TaskType.revision ∧
        r.parent_task_id = some src.task_id := by
  induction srcs with
  | nil =>
    intro a
    exact ⟨rfl, [], by simp, fun r hr => absurd hr (List.not_mem_nil r)⟩
  | cons s rest ih =>
    intro a
    simp only [List.foldl_cons]
    obtain ⟨hw0, new0, h0, hr0⟩ := processRevisions_shape preferences e s a
    obtain ⟨hw1, new1, h1, hr1⟩ := ih (processRevisions preferences e s a)
    refine ⟨hw1.trans hw0, new0 ++ new1, ?_, ?_⟩
    · rw [h1, h0, List.append_assoc]
    · intro r hr
      rcases List.mem_append.mp hr with h | h
      · obtain ⟨D, hD, hprops⟩ := hr0 r h
        exact ⟨s, List.mem_cons_self s rest, D, hD, hprops⟩
      · obtain ⟨src, hsrc, rest2⟩ := hr1 r h
        exact ⟨src, List.mem_cons_of_mem s hsrc, rest2⟩

theorem initialLearningPool_sub (topics : List LearningTopic) (tasks : List StudyTask) :
    ∀ u ∈ initialLearningPool topics tasks, u ∈ tasks ∧ u.scheduled_date ≠ none := by
  intro u hu
  rw [initialLearningPool] at hu
  refine ⟨List.mem_of_mem_filter hu, ?_⟩
  have hcond := List.of_mem_filter hu
  rw [Bool.and_eq_true] at hcond
  have h2 := hcond.2
  intro hnone
  rw [hnone] at h2
  simp at h2

/-- C7 (corrected): spaced repetition. (i) The revision candidate dates of an
initial learning day `D` are exactly `D+1, D+3, D+7` with candidates past the
horizon end omitted. (ii) For every concept-heavy topic with a non-empty id
and at least one scheduled initial-learning task (an entry of
`initialLearningPool`), the grouping loop selects exactly one task per topic
id: a scheduled initial-learning task of that topic whose scheduled date is no
later than that of every other such task; an empty (falsy) id is skipped by
the loop's `if task.source_topic_id:` guard, see the counterexample.
(iii) `_add_spaced_repetition` never adds a warning, and only appends
revision tasks, each derived from a source task of the input list with half
its minutes floored at 15 (`max 15 (required_minutes // 2)`) and a deadline
among that source's candidate dates. (iv) A candidate that fails
`can_fit_session` is dropped: the task list and the whole scheduler state are
left untouched, only the id counter advances. -/
theorem spaced_repetition_spec (preferences : StudyPreferences)
    (topics : List LearningTopic) (end_date : ℤ) (tasks : List StudyTask)
    (counter : ℕ) (st : SchedState) :
    (∀ D : ℤ, spacedRepetitionDates D end_date [1, 3, 7] =
      [D + 1, D + 3, D + 7].filter (fun d => d ≤ end_date)) ∧
    (∀ u ∈ initialLearningPool topics tasks, ∀ tid,
        u.source_topic_id = some tid → tid ≠ "" →
      ∃ t, (groupEarliest (initialLearningPool topics tasks)).lookup tid = some t ∧
        t ∈ initialLearningPool topics tasks ∧ t.source_topic_id = some tid ∧
        ∀ v ∈ initialLearningPool topics tasks, v.source_topic_id = some tid →
          dateLE t v) ∧
    ((addSpacedRepetition preferences topics end_date tasks counter st).2.2.warnings =
      st.warnings ∧
     ∃ new, (addSpacedRepetition preferences topics end_date tasks counter st).1 =
        tasks ++ new ∧
       ∀ r ∈ new, r.task_type = TaskType.revision ∧
         ∃ src ∈ tasks, ∃ D, src.scheduled_date = some D ∧
           r.required_minutes = max 15 (src.required_minutes.fdiv 2) ∧
           r.parent_task_id = some src.task_id ∧
           r.deadline ∈ spacedRepetitionDates D end_date [1, 3, 7]) ∧
    (∀ (src : StudyTask) (a : List StudyTask × ℕ × SchedState) (ip : ℕ × ℤ)
        (c : DayCapacity), a.2.2.capMap.lookup ip.2 = some c →
      ¬ (c.can_fit_session
          (createRevisionTask a.2.1 src ip.2 (ip.1 : ℤ)).1.required_minutes
          (createRevisionTask a.2.1 src ip.2 (ip.1 : ℤ)).1.subject
          (createRevisionTask a.2.1 src ip.2 (ip.1 : ℤ)).1.topic
          preferences.max_subjects_per_day = true) →
      revStep preferences src a ip =
        (a.1, (createRevisionTask a.2.1 src ip.2 (ip.1 : ℤ)).2, a.2.2)) := by
  refine ⟨?_, ?_, ?_, ?_⟩
  · intro D
    rfl
  · exact groupEarliest_earliest _
      (fun u hu => (initialLearningPool_sub topics tasks u hu).2)
  · have ha : addSpacedRepetition preferences topics end_date tasks counter st =
        ((groupEarliest (initialLearningPool topics tasks)).map (fun p => p.2)).foldl
          (fun acc source_task => processRevisions preferences end_date source_task acc)
          (tasks, counter, st) := by
      rw [addSpacedRepetition]
    rw [ha]
    obtain ⟨hw, new, h1, h2⟩ := processRevisions_foldl_shape preferences end_date
      ((groupEarliest (initialLearningPool topics tasks)).map (fun p => p.2))
      (tasks, counter, st)
    refine ⟨hw, new, h1, ?_⟩
    intro r hr
    obtain ⟨src, hsrc, D, hD, hreq, hdl, ht, hpa⟩ := h2 r hr
    obtain ⟨p, hp, hps⟩ := List.mem_map.mp hsrc
    have hps2 : p.2 = src := hps
    have hpool : src ∈ initialLearningPool topics tasks := by
      rw [← hps2]
      exact groupEarliest_snd_mem _ p hp
    exact ⟨ht, src, (initialLearningPool_sub topics tasks src hpool).1, D, hD,
      hreq, hpa, hdl⟩
  · intro src a ip c hlk hcf
    exact revStep_drop preferences src a ip c hlk hcf

/-- Counterexample for C7: a concept-heavy topic whose id is the empty string.
Its scheduled initial-learning task passes the pool filter (`"" in
concept_topic_ids` is true), yet the grouping loop's truthiness guard
`if task.source_topic_id:` treats the empty string as falsy and skips it, so
no task is selected for the topic and `_add_spaced_repetition` changes
nothing: the original claim's "every concept-heavy topic with a scheduled
initial-learning task" fails for empty-id topics. -/
theorem spaced_repetition_empty_id_counterexample :
    emptyIdTopic.is_concept_heavy = true ∧
    emptyIdTopic.id = "" ∧
    emptyIdTask.source_topic_id = some emptyIdTopic.id ∧
    emptyIdTask.status = TaskStatus.scheduled ∧
    emptyIdTask.task_type = TaskType.initial_learning ∧
    emptyIdTask.scheduled_date = some 0 ∧
    emptyIdTask ∈ initialLearningPool [emptyIdTopic] [emptyIdTask] ∧
    groupEarliest (initialLearningPool [emptyIdTopic] [emptyIdTask]) = [] ∧
    ∀ (preferences : StudyPreferences) (end_date : ℤ) (counter : ℕ) (st : SchedState),
      addSpacedRepetition preferences [emptyIdTopic] end_date [emptyIdTask] counter st =
        ([emptyIdTask], counter, st) := by
  have hpool : initialLearningPool [emptyIdTopic] [emptyIdTask] = [emptyIdTask] := rfl
  have hg : groupEarliest (initialLearningPool [emptyIdTopic] [emptyIdTask]) = [] := by
    rw [hpool, groupEarliest, List.foldl_cons, List.foldl_nil,
      groupStep_skip [] emptyIdTask rfl]
  refine ⟨rfl, rfl, rfl, rfl, rfl, rfl, ?_, hg, ?_⟩
  · rw [hpool]
    exact List.mem_cons_self _ _
  · intro preferences end_date counter st
    show ((groupEarliest (initialLearningPool [emptyIdTopic] [emptyIdTask])).map
        (fun p => p.2)).foldl
        (fun acc source_task => processRevisions preferences end_date source_task acc)
        ([emptyIdTask], counter, st) = ([emptyIdTask], counter, st)
    rw [hg]
    rfl

end Timetable
